import Mathlib

/-!
# Verification of the memlink memcached meta-protocol client

This file gives a shallow embedding, in Lean 4, of the parts of the
`stripe/memlink` Go library that the specification talks about:

* the key validator and token writers (`codec/memcache/utils.go`),
* the per-command encoders and decoders for `mg`, `ms`, `md`, `ma` and
  `version` (`codec/memcache/metaget.go`, `metaset.go`, `metadelete.go`,
  `metaarithmetic.go`, `version.go`),
* the bulk wrapper (`codec/memcache/bulk_op.go`),
* the opaque counter (`codec/memcache/opaque.go`),
* the connection-level and list-level submission paths
  (`internal/net/tcp_conn.go`, `internal/net/tcp_conn_list.go`).

Byte streams are modelled as `List Nat` (each element a byte value).
Go readers become functions consuming a prefix of the input list; Go's
in-place decoder mutation becomes explicit state passing, with the decoder
state returned even when decoding fails (Go decoders mutate fields before
returning errors).  `uint64` arithmetic is `Nat` with explicit `% 2^64`.
-/

namespace Memlink

/-! ## Byte-level helpers -/

/-- ASCII whitespace, as in Go's `asciiSpace` table used by `bytes.Fields`:
`\t`, `\n`, `\v`, `\f`, `\r`, space. -/
def isAsciiSpace (b : Nat) : Bool :=
  b = 9 || b = 10 || b = 11 || b = 12 || b = 13 || b = 32

/-- ASCII decimal digit `'0'..'9'`. -/
def isDigitByte (b : Nat) : Bool :=
  48 ≤ b && b ≤ 57

/-- Bytes of a string literal (ASCII codepoints). -/
def strBytes (s : String) : List Nat :=
  s.data.map Char.toNat

/-- `bufio.Reader.ReadSlice('\n')` / `ReadString('\n')`: split the input into
the first line (newline byte included) and the rest; `none` when the input
holds no newline (Go returns the read error in that case and the decoders
propagate it). -/
def splitLine : List Nat → Option (List Nat × List Nat)
  | [] => none
  | b :: r =>
    if b = 10 then some ([10], r)
    else
      match splitLine r with
      | some (l, rest) => some (b :: l, rest)
      | none => none

theorem length_dropWhile_le_self {α : Type} (p : α → Bool) (l : List α) :
    (l.dropWhile p).length ≤ l.length := by
  induction l with
  | nil => simp
  | cons a l ih =>
    by_cases h : p a
    · rw [List.dropWhile_cons_of_pos h]; simp; omega
    · rw [List.dropWhile_cons_of_neg h]

/-- `bytes.Fields` restricted to ASCII input: split around runs of ASCII
whitespace, dropping empty fields. -/
def mcFields (l : List Nat) : List (List Nat) :=
  match l with
  | [] => []
  | b :: r =>
    if isAsciiSpace b then mcFields r
    else (b :: r.takeWhile (fun x => !isAsciiSpace x)) ::
      mcFields (r.dropWhile (fun x => !isAsciiSpace x))
termination_by l.length
decreasing_by
  · simp only [List.length_cons]; omega
  · simp only [List.length_cons]
    have := length_dropWhile_le_self (fun x => !isAsciiSpace x) r
    omega

/-- Value of a digit-byte string, most significant first. -/
def digitsToNat (l : List Nat) : Nat :=
  l.foldl (fun acc b => acc * 10 + (b - 48)) 0

/-- Digit-string parsing shared by the `strconv` models: requires a nonempty
all-digit string (no sign, no underscores — the decoders always parse with
base 10). -/
def parseDigits (l : List Nat) : Option Nat :=
  if l ≠ [] ∧ l.all isDigitByte then some (digitsToNat l) else none

/-- `strconv.ParseUint(s, 10, 64)`: digits only, value below `2^64`
(`ErrRange` otherwise, which the decoders treat as failure). -/
def parseUint64 (l : List Nat) : Option Nat :=
  match parseDigits l with
  | some v => if v < 2 ^ 64 then some v else none
  | none => none

/-- `strconv.ParseUint(s, 10, 32)`. -/
def parseUint32 (l : List Nat) : Option Nat :=
  match parseDigits l with
  | some v => if v < 2 ^ 32 then some v else none
  | none => none

/-- `strconv.ParseInt(s, 10, 32)`: optional `+`/`-` sign, digits, value in
`[-2^31, 2^31 - 1]`. -/
def parseInt32 (l : List Nat) : Option Int :=
  match l with
  | 43 :: r =>
    match parseDigits r with
    | some v => if v ≤ 2 ^ 31 - 1 then some (v : Int) else none
    | none => none
  | 45 :: r =>
    match parseDigits r with
    | some v => if v ≤ 2 ^ 31 then some (-(v : Int)) else none
    | none => none
  | _ =>
    match parseDigits l with
    | some v => if v ≤ 2 ^ 31 - 1 then some (v : Int) else none
    | none => none

/-- `strconv.Atoi` on a 64-bit platform: `ParseInt(s, 10, 64)`. -/
def parseAtoi (l : List Nat) : Option Int :=
  match l with
  | 43 :: r =>
    match parseDigits r with
    | some v => if v ≤ 2 ^ 63 - 1 then some (v : Int) else none
    | none => none
  | 45 :: r =>
    match parseDigits r with
    | some v => if v ≤ 2 ^ 63 then some (-(v : Int)) else none
    | none => none
  | _ =>
    match parseDigits l with
    | some v => if v ≤ 2 ^ 63 - 1 then some (v : Int) else none
    | none => none

/-- Decimal digits of `n`, as produced by `strconv.AppendUint`/`AppendInt`
for non-negative values. -/
def natDigits (n : Nat) : List Nat :=
  if h : n < 10 then [48 + n]
  else natDigits (n / 10) ++ [48 + n % 10]
decreasing_by
  exact Nat.div_lt_self (by omega) (by omega)

/-! ## Key validation (`codec/memcache/utils.go`)

`isLegalMemcacheKey` iterates the key with `for _, c := range key`, which in
Go decodes the string as UTF-8 rune by rune (`utf8.DecodeRuneInString`),
yielding `U+FFFD` and advancing one byte on invalid encodings.  The embedding
reproduces that decoding. -/

/-- Lower bound accepted for the second byte of a multi-byte sequence,
per Go's `utf8.acceptRanges`. -/
def utf8AcceptLo (b0 : Nat) : Nat :=
  if b0 = 0xE0 then 0xA0 else if b0 = 0xF0 then 0x90 else 0x80

/-- Upper bound accepted for the second byte of a multi-byte sequence,
per Go's `utf8.acceptRanges`. -/
def utf8AcceptHi (b0 : Nat) : Nat :=
  if b0 = 0xED then 0x9F else if b0 = 0xF4 then 0x8F else 0xBF

/-- Go `utf8.DecodeRuneInString`: returns the decoded rune and the number of
bytes consumed.  Any invalid, truncated or overlong encoding yields
`(0xFFFD, 1)`.  (Go checks input length before the second-byte range check;
both orders give `(0xFFFD, 1)`, so the result is identical.) -/
def utf8DecodeRune : List Nat → Nat × Nat
  | [] => (0xFFFD, 0)
  | b0 :: rest =>
    if b0 < 0x80 then (b0, 1)
    else if b0 < 0xC2 ∨ 0xF4 < b0 then (0xFFFD, 1)
    else
      match rest with
      | [] => (0xFFFD, 1)
      | b1 :: rest1 =>
        if b1 < utf8AcceptLo b0 ∨ utf8AcceptHi b0 < b1 then (0xFFFD, 1)
        else if b0 ≤ 0xDF then ((b0 % 0x20) * 0x40 + b1 % 0x40, 2)
        else
          match rest1 with
          | [] => (0xFFFD, 1)
          | b2 :: rest2 =>
            if b2 < 0x80 ∨ 0xBF < b2 then (0xFFFD, 1)
            else if b0 ≤ 0xEF then
              ((b0 % 0x10) * 0x1000 + (b1 % 0x40) * 0x40 + b2 % 0x40, 3)
            else
              match rest2 with
              | [] => (0xFFFD, 1)
              | b3 :: _ =>
                if b3 < 0x80 ∨ 0xBF < b3 then (0xFFFD, 1)
                else ((b0 % 8) * 0x40000 + (b1 % 0x40) * 0x1000 +
                  (b2 % 0x40) * 0x40 + b3 % 0x40, 4)

/-- The `for _, c := range key` loop body of `isLegalMemcacheKey`:
reject when the rune is `≤ ' '` or `= 0x7F`, else continue after the rune. -/
def legalKeyLoop (l : List Nat) : Bool :=
  match l with
  | [] => true
  | b :: rest =>
    let cs := utf8DecodeRune (b :: rest)
    if cs.1 ≤ 32 || cs.1 = 0x7F then false
    else legalKeyLoop (rest.drop (cs.2 - 1))
termination_by l.length
decreasing_by
  simp only [List.length_cons, List.length_drop]; omega

/-- `isLegalMemcacheKey` (`utils.go`): length at most 250 bytes and every
rune strictly above `' '` and different from `0x7F`. -/
def isLegalMemcacheKey (key : List Nat) : Bool :=
  if key.length > 250 then false else legalKeyLoop key

/-- `writeKey` (`utils.go`): validate, then append the key and a space to
the scratch buffer; an illegal key fails before anything reaches the
buffer or the socket. -/
def writeKey (key : List Nat) : Except String (List Nat) :=
  if !isLegalMemcacheKey key then Except.error "invalid key in memcache"
  else Except.ok (key ++ [32])

/-! ## Statuses (`codec/memcache/constants.go`) -/

/-- `MetadataStatus`. -/
inductive MetadataStatus where
  | invalid
  | cacheHit
  | cacheMiss
  | notFound
  | notStored
  | existsStat
  | stored
  | deleted
deriving DecidableEq, Repr

/-- `RecacheStatus`. -/
inductive RecacheStatus where
  | notSet
  | won
  | alreadySent
deriving DecidableEq, Repr

/-- `MetaGetStatusFromHeader`: `EN ↦ CacheMiss`, `HD/VA ↦ CacheHit`,
anything else invalid. -/
def metaGetStatusFromHeader (hdr : List Nat) : MetadataStatus :=
  if hdr = strBytes "EN" then .cacheMiss
  else if hdr = strBytes "HD" then .cacheHit
  else if hdr = strBytes "VA" then .cacheHit
  else .invalid

/-- `MetaSetStatusFromHeader`. -/
def metaSetStatusFromHeader (hdr : List Nat) : MetadataStatus :=
  if hdr = strBytes "HD" then .stored
  else if hdr = strBytes "NS" then .notStored
  else if hdr = strBytes "EX" then .existsStat
  else if hdr = strBytes "NF" then .notFound
  else .invalid

/-- `ArithmeticStatusFromHeader`. -/
def arithmeticStatusFromHeader (hdr : List Nat) : MetadataStatus :=
  if hdr = strBytes "HD" then .stored
  else if hdr = strBytes "VA" then .stored
  else if hdr = strBytes "NS" then .notStored
  else if hdr = strBytes "EX" then .existsStat
  else if hdr = strBytes "NF" then .notFound
  else .invalid

/-- `MetaDeleteStatusFromHeader`. -/
def metaDeleteStatusFromHeader (hdr : List Nat) : MetadataStatus :=
  if hdr = strBytes "HD" then .deleted
  else if hdr = strBytes "EX" then .existsStat
  else if hdr = strBytes "NF" then .notFound
  else if hdr = strBytes "NS" then .notStored
  else .invalid

/-! ## Token writers (`codec/memcache/utils.go`)

Each `write*` helper appends its token to the scratch buffer; the embedding
returns the appended bytes.  Flag letters: `E` = 69, `N` = 78, `R` = 82,
`O` = 79, `C` = 67, `J` = 74, `F` = 70, `T` = 84, `D` = 68, space = 32. -/

/-- `writeOpaque`: `O<value> ` when nonzero. -/
def writeOpaque (o : Nat) : List Nat :=
  if o ≠ 0 then 79 :: natDigits o ++ [32] else []

/-- `writeCasId`: `C<value> ` when nonzero. -/
def writeCasId (c : Nat) : List Nat :=
  if c ≠ 0 then 67 :: natDigits c ++ [32] else []

/-- `writeCasOverride`: `E<value> ` when nonzero. -/
def writeCasOverride (e : Nat) : List Nat :=
  if e ≠ 0 then 69 :: natDigits e ++ [32] else []

/-- `writeClientFlags`: `F<value> ` when positive. -/
def writeClientFlags (f : Nat) : List Nat :=
  if f > 0 then 70 :: natDigits f ++ [32] else []

/-- `writeTTL`: `T<value> ` when the `int32` is non-negative. -/
def writeTTL (t : Int) : List Nat :=
  if 0 ≤ t then 84 :: natDigits t.toNat ++ [32] else []

/-- `writeBlockTTL`: `N<value> ` when non-negative. -/
def writeBlockTTL (t : Int) : List Nat :=
  if 0 ≤ t then 78 :: natDigits t.toNat ++ [32] else []

/-- `writeRecacheTTL`: `R<value> ` when non-negative. -/
def writeRecacheTTL (t : Int) : List Nat :=
  if 0 ≤ t then 82 :: natDigits t.toNat ++ [32] else []

/-- `writeInitialValue`: `J<value> ` when nonzero. -/
def writeInitialValue (j : Nat) : List Nat :=
  if j ≠ 0 then 74 :: natDigits j ++ [32] else []

/-- `writeDelta`: `D<value> `, always written. -/
def writeDelta (d : Nat) : List Nat :=
  68 :: natDigits d ++ [32]

/-! ## Request encoders

Bool flags are two-byte constants with a trailing space (`constants.go`):
`b `, `c `, `f `, `h `, `k `, `l `, `s `, `t `, `u `, `v `, `I `, `x `,
and the modes `ME `, `MA `, `MP `, `MR `, `MD `.  Each encoder builds the
whole request in a scratch buffer and writes it to the socket only at the
end, so a key failure writes nothing. -/

/-- `MetaGetEncoder` request struct (`metaget.go`).  `Reset` defaults:
empty key, all flags false, numeric fields 0, TTL-like fields −1. -/
structure MetaGetEncoder where
  key : List Nat := []
  base64EncodedKey : Bool := false
  fetchCasId : Bool := false
  fetchClientFlags : Bool := false
  fetchItemHitBefore : Bool := false
  fetchKey : Bool := false
  fetchLastAccessedTime : Bool := false
  opaqueVal : Nat := 0
  fetchItemSizeInBytes : Bool := false
  fetchRemainingTTL : Bool := false
  preventLRUBump : Bool := false
  fetchValue : Bool := false
  casOverride : Nat := 0
  blockTTL : Int := -1
  recacheTTL : Int := -1
  updateTTL : Int := -1
deriving DecidableEq, Repr

/-- `MetaGetEncoder.Encode`: the bytes written to the wire, or a key error. -/
def mgEncode (e : MetaGetEncoder) : Except String (List Nat) :=
  match writeKey e.key with
  | Except.error msg => Except.error msg
  | Except.ok keyBytes => Except.ok <|
    strBytes "mg " ++ keyBytes ++
    (if e.base64EncodedKey then strBytes "b " else []) ++
    (if e.fetchCasId then strBytes "c " else []) ++
    (if e.fetchClientFlags then strBytes "f " else []) ++
    (if e.fetchItemHitBefore then strBytes "h " else []) ++
    (if e.fetchKey then strBytes "k " else []) ++
    (if e.fetchLastAccessedTime then strBytes "l " else []) ++
    (if e.fetchItemSizeInBytes then strBytes "s " else []) ++
    writeCasOverride e.casOverride ++
    writeRecacheTTL e.recacheTTL ++
    writeBlockTTL e.blockTTL ++
    writeTTL e.updateTTL ++
    (if e.fetchRemainingTTL then strBytes "t " else []) ++
    (if e.preventLRUBump then strBytes "u " else []) ++
    (if e.fetchValue then strBytes "v " else []) ++
    writeOpaque e.opaqueVal ++
    strBytes "\r\n"

/-- `MetaSetMode`: the `ms` mode switch; `noMode` covers the Go default
(empty string), whose `switch` writes nothing. -/
inductive MetaSetMode where
  | noMode
  | add
  | replace
  | append
  | prepend
deriving DecidableEq, Repr

/-- Mode token written by the `ms` encoder's `switch`. -/
def msModeBytes : MetaSetMode → List Nat
  | .noMode => []
  | .add => strBytes "ME "
  | .append => strBytes "MA "
  | .prepend => strBytes "MP "
  | .replace => strBytes "MR "

/-- `MetaSetEncoder` request struct (`metaset.go`). -/
structure MetaSetEncoder where
  key : List Nat := []
  value : List Nat := []
  base64EncodedKey : Bool := false
  fetchCasId : Bool := false
  casId : Nat := 0
  casOverride : Nat := 0
  clientFlags : Nat := 0
  invalidate : Bool := false
  fetchKey : Bool := false
  fetchItemSize : Bool := false
  ttl : Int := -1
  opaqueVal : Nat := 0
  mode : MetaSetMode := .noMode
  blockTTL : Int := -1
deriving DecidableEq, Repr

/-- `MetaSetEncoder.Encode`. -/
def msEncode (e : MetaSetEncoder) : Except String (List Nat) :=
  match writeKey e.key with
  | Except.error msg => Except.error msg
  | Except.ok keyBytes => Except.ok <|
    strBytes "ms " ++ keyBytes ++
    natDigits e.value.length ++ [32] ++
    (if e.base64EncodedKey then strBytes "b " else []) ++
    (if e.fetchCasId then strBytes "c " else []) ++
    (if e.invalidate then strBytes "I " else []) ++
    (if e.fetchKey then strBytes "k " else []) ++
    (if e.fetchItemSize then strBytes "s " else []) ++
    msModeBytes e.mode ++
    writeTTL e.ttl ++
    writeCasId e.casId ++
    writeCasOverride e.casOverride ++
    writeClientFlags e.clientFlags ++
    writeBlockTTL e.blockTTL ++
    writeOpaque e.opaqueVal ++
    strBytes "\r\n" ++ e.value ++ strBytes "\r\n"

/-- `MetaDeleteEncoder` request struct (`metadelete.go`). -/
structure MetaDeleteEncoder where
  key : List Nat := []
  base64EncodedKey : Bool := false
  casId : Nat := 0
  casOverride : Nat := 0
  invalidate : Bool := false
  fetchKey : Bool := false
  opaqueVal : Nat := 0
  ttl : Int := -1
  clientFlags : Nat := 0
  removeValue : Bool := false
deriving DecidableEq, Repr

/-- `MetaDeleteEncoder.Encode`. -/
def mdEncode (e : MetaDeleteEncoder) : Except String (List Nat) :=
  match writeKey e.key with
  | Except.error msg => Except.error msg
  | Except.ok keyBytes => Except.ok <|
    strBytes "md " ++ keyBytes ++
    (if e.base64EncodedKey then strBytes "b " else []) ++
    (if e.invalidate then strBytes "I " else []) ++
    (if e.fetchKey then strBytes "k " else []) ++
    (if e.removeValue then strBytes "x " else []) ++
    writeCasId e.casId ++
    writeCasOverride e.casOverride ++
    writeTTL e.ttl ++
    writeClientFlags e.clientFlags ++
    writeOpaque e.opaqueVal ++
    strBytes "\r\n"

/-- `MetaArithmeticEncoder` request struct (`metaarithmetic.go`). -/
structure MetaArithmeticEncoder where
  key : List Nat := []
  base64EncodedKey : Bool := false
  casId : Nat := 0
  casOverride : Nat := 0
  blockTTL : Int := -1
  initialValue : Nat := 0
  delta : Nat := 0
  ttl : Int := -1
  decrement : Bool := false
  opaqueVal : Nat := 0
  fetchRemainingTTL : Bool := false
  fetchCasId : Bool := false
  fetchValue : Bool := false
  fetchKey : Bool := false
deriving DecidableEq, Repr

/-- `MetaArithmeticEncoder.Encode`. -/
def maEncode (e : MetaArithmeticEncoder) : Except String (List Nat) :=
  match writeKey e.key with
  | Except.error msg => Except.error msg
  | Except.ok keyBytes => Except.ok <|
    strBytes "ma " ++ keyBytes ++
    (if e.decrement then strBytes "MD " else []) ++
    (if e.fetchRemainingTTL then strBytes "t " else []) ++
    (if e.fetchCasId then strBytes "c " else []) ++
    (if e.fetchValue then strBytes "v " else []) ++
    (if e.fetchKey then strBytes "k " else []) ++
    writeCasId e.casId ++
    writeCasOverride e.casOverride ++
    writeTTL e.ttl ++
    writeBlockTTL e.blockTTL ++
    writeInitialValue e.initialValue ++
    writeDelta e.delta ++
    writeOpaque e.opaqueVal ++
    strBytes "\r\n"

/-- `VersionEncoder.Encode`: always `version\r\n`. -/
def versionEncode : List Nat :=
  strBytes "version\r\n"

/-! ## Shared read helpers (`codec/memcache/utils.go`)

Decoders return their (possibly partially updated) state together with
either the unread remainder of the input or an error, because the Go
decoders mutate fields in place before a later token can fail. -/

/-- `ReadCLRF`: consume exactly `\r\n`, error otherwise (including EOF). -/
def readCRLF : List Nat → Except String (List Nat)
  | [] => Except.error "eof reading CR"
  | cr :: rest =>
    if cr ≠ 13 then Except.error "expected to read CR"
    else
      match rest with
      | [] => Except.error "eof reading NL"
      | nl :: rest2 =>
        if nl ≠ 10 then Except.error "expected to read NL"
        else Except.ok rest2

/-- `ReadMNResp`: consume exactly the four bytes `MN\r\n`. -/
def readMNResp : List Nat → Except String (List Nat)
  | [] => Except.error "eof reading M"
  | m :: rest =>
    if m ≠ 77 then Except.error "expected to read M character"
    else
      match rest with
      | [] => Except.error "eof reading N"
      | n :: rest2 =>
        if n ≠ 78 then Except.error "expected to read N character"
        else readCRLF rest2

/-- `io.ReadFull` into a fresh `make([]byte, n)` buffer: returns the buffer
contents (zero-padded on a short read, as Go leaves unwritten buffer bytes
zero) and the remaining input or a short-read error. -/
def readValueBlock (n : Nat) (input : List Nat) :
    List Nat × Except String (List Nat) :=
  if input.length < n then
    (input ++ List.replicate (n - input.length) 0, Except.error "unexpected EOF")
  else (input.take n, Except.ok (input.drop n))

/-! ## `mg` response decoder (`codec/memcache/metaget.go`) -/

/-- `MetaGetDecoder` response struct; the field defaults are the values
`Reset` installs.  `value = none` models the `nil` slice. -/
structure MetaGetDecoder where
  status : MetadataStatus := .invalid
  recache : RecacheStatus := .notSet
  value : Option (List Nat) := none
  casId : Nat := 0
  remainingTTLSeconds : Int := 0
  clientFlags : Nat := 0
  opaqueVal : Nat := 0
  isItemHitBefore : Bool := false
  itemKey : List Nat := []
  itemSizeInBytes : Nat := 0
  timeSinceLastAccessedSeconds : Nat := 0
  stale : Bool := false
  hdrLine : List Nat := []
deriving DecidableEq, Repr

/-- `MetaGetDecoder.Reset`. -/
def mgReset (_d : MetaGetDecoder) : MetaGetDecoder := {}

/-- The header-token loop of `MetaGetDecoder.Decode` after the status word:
first digit-led token is the value size, single-letter tokens `W`/`X`/`Z`
set recache/stale, letter-prefixed tokens set their fields, anything else
is skipped.  Flag letters: `O` = 79, `t` = 116, `c` = 99, `f` = 102,
`h` = 104, `k` = 107, `s` = 115, `l` = 108, `W` = 87, `X` = 88, `Z` = 90. -/
def mgProcessFields (d : MetaGetDecoder) (vs : Option Nat) :
    List (List Nat) → MetaGetDecoder × Except String (Option Nat)
  | [] => (d, Except.ok vs)
  | tok :: rest =>
    match tok with
    | [] => mgProcessFields d vs rest
    | c :: arg =>
      if vs = none ∧ isDigitByte c then
        match parseAtoi (c :: arg) with
        | some v => mgProcessFields d (some v.toNat) rest
        | none => (d, Except.error "unable to parse value size")
      else if arg = [] then
        if c = 87 then mgProcessFields { d with recache := .won } vs rest
        else if c = 88 then mgProcessFields { d with stale := true } vs rest
        else if c = 90 then
          mgProcessFields { d with recache := .alreadySent } vs rest
        else mgProcessFields d vs rest
      else if c = 79 then
        match parseUint64 arg with
        | some o => mgProcessFields { d with opaqueVal := o } vs rest
        | none => (d, Except.error "unable to parse opaque token as an uint64")
      else if c = 116 then
        match parseInt32 arg with
        | some t => mgProcessFields { d with remainingTTLSeconds := t } vs rest
        | none => (d, Except.error "unable to parse ttl as an int32")
      else if c = 99 then
        match parseUint64 arg with
        | some v => mgProcessFields { d with casId := v } vs rest
        | none => (d, Except.error "unable to parse casid as an uint64")
      else if c = 102 then
        match parseUint64 arg with
        | some v => mgProcessFields { d with clientFlags := v } vs rest
        | none => (d, Except.error "unable to parse cft as an uint64")
      else if c = 104 then
        mgProcessFields
          (if arg = [49] then { d with isItemHitBefore := true } else d) vs rest
      else if c = 107 then
        mgProcessFields { d with itemKey := arg } vs rest
      else if c = 115 then
        match parseUint64 arg with
        | some v => mgProcessFields { d with itemSizeInBytes := v } vs rest
        | none => (d, Except.error "unable to parse item size as an uint64")
      else if c = 108 then
        match parseUint32 arg with
        | some v =>
          mgProcessFields { d with timeSinceLastAccessedSeconds := v } vs rest
        | none => (d, Except.error "unable to parse last access")
      else mgProcessFields d vs rest

/-- `MetaGetDecoder.Decode`: read the header line, dispatch on the status
word, process tokens, then read the value block (plus trailing CRLF) iff a
digit-led token fixed a value size. -/
def mgDecode (d : MetaGetDecoder) (input : List Nat) :
    MetaGetDecoder × Except String (List Nat) :=
  match splitLine input with
  | none => (d, Except.error "header read error")
  | some (line, rest) =>
    match mcFields line with
    | [] => (d, Except.ok rest)
    | statusTok :: toks =>
      let st := metaGetStatusFromHeader statusTok
      if st = .invalid then
        ({ d with status := st, hdrLine := line }, Except.ok rest)
      else
        match mgProcessFields { d with status := st } none toks with
        | (d1, Except.error msg) => (d1, Except.error msg)
        | (d1, Except.ok none) => (d1, Except.ok rest)
        | (d1, Except.ok (some n)) =>
          let rv := readValueBlock n rest
          let d2 := { d1 with value := some rv.1 }
          match rv.2 with
          | Except.error msg => (d2, Except.error msg)
          | Except.ok rest2 =>
            match readCRLF rest2 with
            | Except.error msg => (d2, Except.error msg)
            | Except.ok rest3 => (d2, Except.ok rest3)

/-! ## `ms` response decoder (`codec/memcache/metaset.go`) -/

/-- `MetaSetDecoder` response struct with its `Reset` defaults. -/
structure MetaSetDecoder where
  status : MetadataStatus := .invalid
  opaqueVal : Nat := 0
  casId : Nat := 0
  itemKey : List Nat := []
  hdrLine : List Nat := []
deriving DecidableEq, Repr

/-- `MetaSetDecoder.Reset`. -/
def msReset (_d : MetaSetDecoder) : MetaSetDecoder := {}

/-- Header-token loop of `MetaSetDecoder.Decode`: only `O`, `c`, `k`. -/
def msProcessFields (d : MetaSetDecoder) :
    List (List Nat) → MetaSetDecoder × Except String Unit
  | [] => (d, Except.ok ())
  | tok :: rest =>
    match tok with
    | [] => msProcessFields d rest
    | c :: arg =>
      if c = 79 then
        match parseUint64 arg with
        | some o => msProcessFields { d with opaqueVal := o } rest
        | none => (d, Except.error "unable to parse opaque token as an uint64")
      else if c = 99 then
        match parseUint64 arg with
        | some v => msProcessFields { d with casId := v } rest
        | none => (d, Except.error "unable to parse cas id as an uint64")
      else if c = 107 then
        msProcessFields { d with itemKey := arg } rest
      else msProcessFields d rest

/-- `MetaSetDecoder.Decode`: header line only, no value block, no CRLF
beyond the header. -/
def msDecode (d : MetaSetDecoder) (input : List Nat) :
    MetaSetDecoder × Except String (List Nat) :=
  match splitLine input with
  | none => (d, Except.error "header read error")
  | some (line, rest) =>
    match mcFields line with
    | [] => (d, Except.ok rest)
    | statusTok :: toks =>
      let st := metaSetStatusFromHeader statusTok
      if st = .invalid then
        ({ d with status := st, hdrLine := line }, Except.ok rest)
      else
        match msProcessFields { d with status := st } toks with
        | (d1, Except.error msg) => (d1, Except.error msg)
        | (d1, Except.ok ()) => (d1, Except.ok rest)

/-! ## `md` response decoder (`codec/memcache/metadelete.go`) -/

/-- `MetaDeleteDecoder` response struct with its `Reset` defaults. -/
structure MetaDeleteDecoder where
  status : MetadataStatus := .invalid
  opaqueVal : Nat := 0
  itemKey : List Nat := []
  hdrLine : List Nat := []
deriving DecidableEq, Repr

/-- `MetaDeleteDecoder.Reset`. -/
def mdReset (_d : MetaDeleteDecoder) : MetaDeleteDecoder := {}

/-- Header-token loop of `MetaDeleteDecoder.Decode`: only `O` and `k`. -/
def mdProcessFields (d : MetaDeleteDecoder) :
    List (List Nat) → MetaDeleteDecoder × Except String Unit
  | [] => (d, Except.ok ())
  | tok :: rest =>
    match tok with
    | [] => mdProcessFields d rest
    | c :: arg =>
      if c = 79 then
        match parseUint64 arg with
        | some o => mdProcessFields { d with opaqueVal := o } rest
        | none => (d, Except.error "unable to parse opaque token as an uint64")
      else if c = 107 then
        mdProcessFields { d with itemKey := arg } rest
      else mdProcessFields d rest

/-- `MetaDeleteDecoder.Decode`. -/
def mdDecode (d : MetaDeleteDecoder) (input : List Nat) :
    MetaDeleteDecoder × Except String (List Nat) :=
  match splitLine input with
  | none => (d, Except.error "header read error")
  | some (line, rest) =>
    match mcFields line with
    | [] => (d, Except.ok rest)
    | statusTok :: toks =>
      let st := metaDeleteStatusFromHeader statusTok
      if st = .invalid then
        ({ d with status := st, hdrLine := line }, Except.ok rest)
      else
        match mdProcessFields { d with status := st } toks with
        | (d1, Except.error msg) => (d1, Except.error msg)
        | (d1, Except.ok ()) => (d1, Except.ok rest)

/-! ## `ma` response decoder (`codec/memcache/metaarithmetic.go`) -/

/-- `MetaArithmeticDecoder` response struct with its `Reset` defaults. -/
structure MetaArithmeticDecoder where
  status : MetadataStatus := .invalid
  opaqueVal : Nat := 0
  remainingTTLSeconds : Int := 0
  value : Option (List Nat) := none
  valueUInt64 : Nat := 0
  casId : Nat := 0
  itemKey : List Nat := []
  hdrLine : List Nat := []
deriving DecidableEq, Repr

/-- `MetaArithmeticDecoder.Reset`. -/
def maReset (_d : MetaArithmeticDecoder) : MetaArithmeticDecoder := {}

/-- Header-token loop of `MetaArithmeticDecoder.Decode`: first digit-led
token is the value size; then `O`, `t`, `c`, `k`. -/
def maProcessFields (d : MetaArithmeticDecoder) (vs : Option Nat) :
    List (List Nat) → MetaArithmeticDecoder × Except String (Option Nat)
  | [] => (d, Except.ok vs)
  | tok :: rest =>
    match tok with
    | [] => maProcessFields d vs rest
    | c :: arg =>
      if vs = none ∧ isDigitByte c then
        match parseAtoi (c :: arg) with
        | some v => maProcessFields d (some v.toNat) rest
        | none => (d, Except.error "unable to parse value size")
      else if c = 79 then
        match parseUint64 arg with
        | some o => maProcessFields { d with opaqueVal := o } vs rest
        | none => (d, Except.error "unable to parse opaque token as an uint64")
      else if c = 116 then
        match parseInt32 arg with
        | some t => maProcessFields { d with remainingTTLSeconds := t } vs rest
        | none => (d, Except.error "unable to parse ttl as an int32")
      else if c = 99 then
        match parseUint64 arg with
        | some v => maProcessFields { d with casId := v } vs rest
        | none => (d, Except.error "unable to parse cas id as an uint64")
      else if c = 107 then
        maProcessFields { d with itemKey := arg } vs rest
      else maProcessFields d vs rest

/-- `MetaArithmeticDecoder.Decode`: like `mg`, plus the value bytes are
parsed as a decimal `uint64` into `valueUInt64`. -/
def maDecode (d : MetaArithmeticDecoder) (input : List Nat) :
    MetaArithmeticDecoder × Except String (List Nat) :=
  match splitLine input with
  | none => (d, Except.error "header read error")
  | some (line, rest) =>
    match mcFields line with
    | [] => (d, Except.ok rest)
    | statusTok :: toks =>
      let st := arithmeticStatusFromHeader statusTok
      if st = .invalid then
        ({ d with status := st, hdrLine := line }, Except.ok rest)
      else
        match maProcessFields { d with status := st } none toks with
        | (d1, Except.error msg) => (d1, Except.error msg)
        | (d1, Except.ok none) => (d1, Except.ok rest)
        | (d1, Except.ok (some n)) =>
          let rv := readValueBlock n rest
          let d2 := { d1 with value := some rv.1 }
          match rv.2 with
          | Except.error msg => (d2, Except.error msg)
          | Except.ok rest2 =>
            match parseUint64 rv.1 with
            | none => (d2, Except.error "value is not an uint64")
            | some v =>
              let d3 := { d2 with valueUInt64 := v }
              match readCRLF rest2 with
              | Except.error msg => (d3, Except.error msg)
              | Except.ok rest3 => (d3, Except.ok rest3)

/-! ## `version` decoder (`codec/memcache/version.go`) -/

/-- `VersionDecoder` response struct. -/
structure VersionDecoder where
  hdrLine : List Nat := []
deriving DecidableEq, Repr

/-- `VersionDecoder.Decode`: read one line with `ReadString('\n')`, store it
in `hdrLine` unconditionally, then fail iff it does not start with the
seven bytes `VERSION`. -/
def versionDecode (d : VersionDecoder) (input : List Nat) :
    VersionDecoder × Except String (List Nat) :=
  match splitLine input with
  | none => (d, Except.error "header read error")
  | some (line, rest) =>
    let d1 : VersionDecoder := { hdrLine := line }
    if (strBytes "VERSION").isPrefixOf line then (d1, Except.ok rest)
    else (d1, Except.error "expected VERSION prefix in response")

/-! ## Bulk wrapper (`codec/memcache/bulk_op.go`), at `mg` sub-decoders -/

/-- The sub-decoder loop of `BulkDecoder.Decode`: run each decoder in order
on the remaining input, stopping at the first error. -/
def mgDecodeAll (ds : List MetaGetDecoder) (input : List Nat) :
    Except String (List MetaGetDecoder × List Nat) :=
  match ds with
  | [] => Except.ok ([], input)
  | d :: rest =>
    match mgDecode d input with
    | (_, Except.error msg) => Except.error msg
    | (d1, Except.ok remaining) =>
      match mgDecodeAll rest remaining with
      | Except.error msg => Except.error msg
      | Except.ok (ds1, rem2) => Except.ok (d1 :: ds1, rem2)

/-- `BulkDecoder.Decode` (instantiated at `*MetaGetDecoder`): all
sub-decoders in order, then `ReadMNResp`. -/
def bulkMgDecode (ds : List MetaGetDecoder) (input : List Nat) :
    Except String (List MetaGetDecoder × List Nat) :=
  match mgDecodeAll ds input with
  | Except.error msg => Except.error msg
  | Except.ok (ds1, rest) =>
    match readMNResp rest with
    | Except.error msg => Except.error msg
    | Except.ok rest2 => Except.ok (ds1, rest2)

/-- `BulkEncoder.Encode` (instantiated at `*MetaGetEncoder`): concatenate
the sub-requests and append `mn\r\n`. -/
def bulkMgEncode (es : List MetaGetEncoder) : Except String (List Nat) :=
  match es with
  | [] => Except.ok (strBytes "mn\r\n")
  | e :: rest =>
    match mgEncode e with
    | Except.error msg => Except.error msg
    | Except.ok out =>
      match bulkMgEncode rest with
      | Except.error msg => Except.error msg
      | Except.ok outRest => Except.ok (out ++ outRest)

/-! ## Opaque counter (`codec/memcache/opaque.go`)

The process-wide `atomic.Uint64` becomes explicit state: each operation maps
the counter value before the call to `(returned value, counter after)`.
All arithmetic is modulo `2^64`. -/

/-- `2^64`, the modulus of Go's `uint64`. -/
def U64 : Nat := 2 ^ 64

/-- `NextOpaque`: `Counter.Add(1)` returns the post-increment value. -/
def nextOpaque (v : Nat) : Nat × Nat :=
  let nv := (v + 1) % U64
  (nv, nv)

/-- `NextNOpaques(n)`: a single `Counter.Add(n)` giving `o`, returning
`o - n + 1` in `uint64` arithmetic. -/
def nextNOpaques (n v : Nat) : Nat × Nat :=
  let o := (v + n) % U64
  ((o + (U64 - n % U64) + 1) % U64, o)

/-! ## Connection-level submission (`internal/net/tcp_conn.go`)

`tcpConn.Append` touches only the state lock, the state word and the
outbound channel, so a connection is modelled by exactly those three:
whether `TryRLock` would succeed right now, the lifecycle state, and the
queued links (channel capacity `queueSize = 1000`).  Links are an abstract
type `α`. -/

/-- Connection lifecycle states. -/
inductive ConnState where
  | unavailable
  | connected
  | terminated
  | reconnecting
  | connectFailed
deriving DecidableEq, Repr

/-- `queueSize`: capacity of the outbound and inbound channels. -/
def queueSize : Nat := 1000

/-- Snapshot of the fields of `tcpConn` that `Append` reads. -/
structure TcpConn (α : Type) where
  lockFree : Bool
  state : ConnState
  outbound : List α

/-- Outcome of `tcpConn.Append`: the four mutually distinct results.
`okAppended` carries the connection with the link enqueued;
`errNotConnected` carries the offending state (Go formats it into the
error message). -/
inductive AppendResult (α : Type) where
  | okAppended (c : TcpConn α)
  | errChangingState
  | errNotConnected (st : ConnState)
  | errQueueFull

/-- `tcpConn.Append`: `TryRLock`, then the state check, then the
non-blocking channel send (`select`/`default`), in that order. -/
def tcpConnAppend {α : Type} (c : TcpConn α) (link : α) : AppendResult α :=
  if c.lockFree then
    if c.state = .connected then
      if c.outbound.length < queueSize then
        .okAppended { c with outbound := c.outbound ++ [link] }
      else .errQueueFull
    else .errNotConnected c.state
  else .errChangingState

/-! ## List-level submission (`internal/net/tcp_conn_list.go`) -/

/-- Outcome of `tcpConnList.Append`: either whatever the chosen connection
returned (success included), or `backend-unhealthy` after a full sweep of
changing-state results. -/
inductive ListAppendResult (α : Type) where
  | fromConn (r : AppendResult α)
  | errBackendUnhealthy

/-- The fields of `tcpConnList` that `Append` reads. -/
structure TcpConnList (α : Type) where
  numConns : Nat
  conns : List (TcpConn α)
  iterIdx : Nat

/-- Placeholder for out-of-range slice access (never reached when
`numConns = conns.length`, the constructor invariant). -/
def dummyConn {α : Type} : TcpConn α :=
  { lockFree := true, state := .unavailable, outbound := [] }

/-- The `for i < numConns` loop of `tcpConnList.Append`: increment the
shared iteration counter, pick `counter % numConns`, delegate, and move on
only when the connection reported changing-state.  Returns the result and
the final counter. -/
def listSweep {α : Type} (conns : List (TcpConn α)) (numConns : Nat)
    (link : α) : Nat → Nat → ListAppendResult α × Nat
  | iter, 0 => (.errBackendUnhealthy, iter)
  | iter, fuel + 1 =>
    let newIter := iter + 1
    match tcpConnAppend (conns.getD (newIter % numConns) dummyConn) link with
    | .errChangingState => listSweep conns numConns link newIter fuel
    | r => (.fromConn r, newIter)

/-- `tcpConnList.Append`. -/
def listAppend {α : Type} (t : TcpConnList α) (link : α) :
    ListAppendResult α × Nat :=
  listSweep t.conns t.numConns link t.iterIdx t.numConns

/-! ## Theorems

### C1 — key validator -/

/-- Byte-level predicate characterising what the rune loop accepts:
strictly above `0x20` and different from `0x7F`. -/
def legalByte (b : Nat) : Bool := 32 < b && b ≠ 127

theorem utf8DecodeRune_ascii (b : Nat) (r : List Nat) (h : b < 0x80) :
    utf8DecodeRune (b :: r) = (b, 1) := by
  simp [utf8DecodeRune, h]

theorem utf8AcceptLo_ge (b0 : Nat) : 0x80 ≤ utf8AcceptLo b0 := by
  unfold utf8AcceptLo; split_ifs <;> omega

/-- For a non-ASCII leading byte the decoded rune is at least `0x80`, at
least one byte is consumed, and every extra byte consumed lies in the
continuation range (hence is at least `0x80`). -/
theorem utf8AcceptHi_cases (b0 : Nat) :
    utf8AcceptHi b0 = 0x9F ∨ utf8AcceptHi b0 = 0x8F ∨
      utf8AcceptHi b0 = 0xBF := by
  unfold utf8AcceptHi; split_ifs <;> simp

/-- For a non-ASCII leading byte the decoded rune is at least `0x80`, at
least one byte is consumed, and every extra byte consumed lies in the
continuation range (hence is at least `0x80`). -/
theorem utf8DecodeRune_hi (b : Nat) (r : List Nat) (h : 0x80 ≤ b) :
    0x80 ≤ (utf8DecodeRune (b :: r)).1 ∧ 1 ≤ (utf8DecodeRune (b :: r)).2 ∧
      ∀ x ∈ r.take ((utf8DecodeRune (b :: r)).2 - 1), 0x80 ≤ x := by
  simp only [utf8DecodeRune]
  rw [if_neg (by omega)]
  by_cases hinv : b < 0xC2 ∨ 0xF4 < b
  · rw [if_pos hinv]; simp
  · rw [if_neg hinv]
    push_neg at hinv
    match r with
    | [] => simp
    | b1 :: r1 =>
      dsimp only
      by_cases hacc : b1 < utf8AcceptLo b ∨ utf8AcceptHi b < b1
      · rw [if_pos hacc]; simp
      · rw [if_neg hacc]
        push_neg at hacc
        have hb1 : 0x80 ≤ b1 := le_trans (utf8AcceptLo_ge b) hacc.1
        by_cases h2 : b ≤ 0xDF
        · rw [if_pos h2]
          refine ⟨by omega, Nat.le_of_lt (by omega), ?_⟩
          show ∀ x ∈ [b1], 0x80 ≤ x
          intro x hx
          simp only [List.mem_singleton] at hx
          omega
        · rw [if_neg h2]
          match r1 with
          | [] => simp
          | b2 :: r2 =>
            dsimp only
            by_cases hc2 : b2 < 0x80 ∨ 0xBF < b2
            · rw [if_pos hc2]; simp
            · rw [if_neg hc2]
              push_neg at hc2
              by_cases h3 : b ≤ 0xEF
              · rw [if_pos h3]
                have hrune : 0x80 ≤ (b % 0x10) * 0x1000 +
                    (b1 % 0x40) * 0x40 + b2 % 0x40 := by
                  by_cases he0 : b = 0xE0
                  · have hlo : utf8AcceptLo b = 0xA0 := by
                      simp [utf8AcceptLo, he0]
                    have hhi : utf8AcceptHi b = 0xBF := by
                      simp [utf8AcceptHi, he0]
                    have hlob1 : 0xA0 ≤ b1 := hlo ▸ hacc.1
                    have hhib1 : b1 ≤ 0xBF := hacc.2.trans_eq hhi
                    have : 0x20 ≤ b1 % 0x40 := by omega
                    omega
                  · have hge : 0xE1 ≤ b := by omega
                    have : 1 ≤ b % 0x10 := by omega
                    omega
                refine ⟨hrune, Nat.le_of_lt (by omega), ?_⟩
                show ∀ x ∈ [b1, b2], 0x80 ≤ x
                intro x hx
                simp only [List.mem_cons, List.mem_singleton,
                  List.not_mem_nil, or_false] at hx
                rcases hx with hx | hx
                · omega
                · omega
              · rw [if_neg h3]
                match r2 with
                | [] => simp
                | b3 :: r3 =>
                  dsimp only
                  by_cases hc3 : b3 < 0x80 ∨ 0xBF < b3
                  · rw [if_pos hc3]; simp
                  · rw [if_neg hc3]
                    push_neg at hc3
                    have hrune : 0x80 ≤ (b % 8) * 0x40000 +
                        (b1 % 0x40) * 0x1000 + (b2 % 0x40) * 0x40 +
                        b3 % 0x40 := by
                      by_cases hf0 : b = 0xF0
                      · have hlo : utf8AcceptLo b = 0x90 := by
                          simp [utf8AcceptLo, hf0]
                        have hhi : utf8AcceptHi b = 0xBF := by
                          simp [utf8AcceptHi, hf0]
                        have hlob1 : 0x90 ≤ b1 := hlo ▸ hacc.1
                        have hhib1 : b1 ≤ 0xBF := hacc.2.trans_eq hhi
                        have : 0x10 ≤ b1 % 0x40 := by omega
                        omega
                      · have hge : 0xF1 ≤ b := by omega
                        have : 1 ≤ b % 8 := by omega
                        omega
                    refine ⟨hrune, Nat.le_of_lt (by omega), ?_⟩
                    show ∀ x ∈ [b1, b2, b3], 0x80 ≤ x
                    intro x hx
                    simp only [List.mem_cons, List.mem_singleton,
                      List.not_mem_nil, or_false] at hx
                    rcases hx with hx | hx | hx
                    · omega
                    · omega
                    · omega

/-- Byte-level characterisation of the rune loop: it accepts exactly the
keys in which every byte is above `0x20` and different from `0x7F` (bytes
at or above `0x80` always pass, being decoded as non-ASCII runes or as
`U+FFFD`). -/
theorem legalKeyLoop_eq_all (l : List Nat) : legalKeyLoop l = l.all legalByte := by
  have main : ∀ n, ∀ l : List Nat, l.length ≤ n →
      legalKeyLoop l = l.all legalByte := by
    intro n
    induction n with
    | zero =>
      intro l hl
      have : l = [] := by
        cases l with
        | nil => rfl
        | cons a t => simp at hl
      subst this
      simp [legalKeyLoop]
    | succ n ih =>
      intro l hl
      match l with
      | [] => simp [legalKeyLoop]
      | b :: rest =>
        have hrest : rest.length ≤ n := by
          simp only [List.length_cons] at hl; omega
        rw [legalKeyLoop]
        by_cases hb : b < 0x80
        · rw [utf8DecodeRune_ascii b rest hb]
          by_cases hbad : b ≤ 32 || b = 0x7F
          · rw [if_pos hbad]
            have hlb : legalByte b = false := by
              simp only [Bool.or_eq_true, decide_eq_true_eq] at hbad
              simp only [legalByte, Bool.and_eq_false_iff,
                decide_eq_false_iff_not]
              omega
            simp [hlb]
          · rw [if_neg hbad]
            simp only [Bool.or_eq_true, decide_eq_true_eq, not_or] at hbad
            have hlb : legalByte b = true := by
              simp only [legalByte, Bool.and_eq_true, decide_eq_true_eq]
              constructor
              · omega
              · simp; omega
            simp only [Nat.sub_self, List.drop_zero]
            rw [ih rest hrest]
            simp [hlb]
        · obtain ⟨hrune, hsize, hskip⟩ :=
            utf8DecodeRune_hi b rest (by omega)
          rw [if_neg (by
            simp only [Bool.or_eq_true, decide_eq_true_eq]
            push_neg
            constructor
            · omega
            · omega)]
          have hlb : legalByte b = true := by
            simp only [legalByte, Bool.and_eq_true, decide_eq_true_eq]
            constructor
            · omega
            · simp; omega
          have hsplit : rest = rest.take ((utf8DecodeRune (b :: rest)).2 - 1)
              ++ rest.drop ((utf8DecodeRune (b :: rest)).2 - 1) :=
            (List.take_append_drop _ rest).symm
          have hdroplen :
              (rest.drop ((utf8DecodeRune (b :: rest)).2 - 1)).length ≤ n := by
            have h1 :
                (rest.drop ((utf8DecodeRune (b :: rest)).2 - 1)).length ≤
                  rest.length := by
              rw [List.length_drop]; omega
            have h2 : rest.length ≤ n := by
              simp only [List.length_cons] at hl; omega
            omega
          rw [ih _ hdroplen]
          conv_rhs => rw [List.all_cons, hlb, Bool.true_and, hsplit]
          rw [List.all_append]
          have htk : (rest.take ((utf8DecodeRune (b :: rest)).2 - 1)).all
              legalByte = true := by
            rw [List.all_eq_true]
            intro x hx
            have hx128 := hskip x hx
            simp only [legalByte, Bool.and_eq_true, decide_eq_true_eq]
            constructor
            · omega
            · simp; omega
          rw [htk, Bool.true_and]
  exact main l.length l le_rfl

/-- **C1 (counterexample).**  The claim says the validator accepts a key
exactly when its length is in `1..250` and every byte is strictly between
`0x20` and `0x7F`.  The code accepts the empty key (length 0) and accepts
the key `[0xFF]`, whose only byte is at least `0x7F`, so the claim as
stated is false. -/
theorem c1_key_validator_counterexample :
    isLegalMemcacheKey [] = true ∧ ([] : List Nat).length = 0 ∧
      isLegalMemcacheKey [0xFF] = true ∧ ¬(0xFF < 0x7F) := by
  refine ⟨by simp [isLegalMemcacheKey, legalKeyLoop], by simp, ?_, by omega⟩
  simp [isLegalMemcacheKey, legalKeyLoop_eq_all, legalByte]

/-- **C1 (amended).**  The key validator accepts a key exactly when its
byte length is at most 250 (no lower bound: the empty key is accepted) and
every byte is strictly greater than `0x20` and different from `0x7F`
(bytes `≥ 0x80` are accepted, being decoded as non-ASCII runes); for every
rejected key, `writeKey` and all four request encoders fail without
producing any output bytes. -/
theorem c1_key_validator :
    (∀ key : List Nat, isLegalMemcacheKey key =
      (decide (key.length ≤ 250) && key.all legalByte)) ∧
    (∀ key : List Nat, isLegalMemcacheKey key = false →
      writeKey key = Except.error "invalid key in memcache") ∧
    (∀ e : MetaGetEncoder, isLegalMemcacheKey e.key = false →
      mgEncode e = Except.error "invalid key in memcache") ∧
    (∀ e : MetaSetEncoder, isLegalMemcacheKey e.key = false →
      msEncode e = Except.error "invalid key in memcache") ∧
    (∀ e : MetaDeleteEncoder, isLegalMemcacheKey e.key = false →
      mdEncode e = Except.error "invalid key in memcache") ∧
    (∀ e : MetaArithmeticEncoder, isLegalMemcacheKey e.key = false →
      maEncode e = Except.error "invalid key in memcache") := by
  refine ⟨?_, ?_, ?_, ?_, ?_, ?_⟩
  · intro key
    rw [isLegalMemcacheKey, legalKeyLoop_eq_all]
    by_cases h : key.length > 250
    · rw [if_pos h]
      have : ¬ key.length ≤ 250 := by omega
      simp [this]
    · rw [if_neg h]
      have : key.length ≤ 250 := by omega
      simp [this]
  · intro key h
    simp [writeKey, h]
  · intro e h
    simp [mgEncode, writeKey, h]
  · intro e h
    simp [msEncode, writeKey, h]
  · intro e h
    simp [mdEncode, writeKey, h]
  · intro e h
    simp [maEncode, writeKey, h]

/-- Witness for C1: the one-byte key `" "` (byte `0x20`) is rejected and
the `mg` encoder fails on it. -/
theorem c1_key_validator_witness :
    isLegalMemcacheKey [32] =
      (decide (([32] : List Nat).length ≤ 250) && [32].all legalByte) ∧
    mgEncode { key := [32] } = Except.error "invalid key in memcache" :=
  ⟨c1_key_validator.1 [32],
    c1_key_validator.2.2.1 { key := [32] }
      (by simp [isLegalMemcacheKey, legalKeyLoop_eq_all, legalByte])⟩

/-! ### C3 — `mg` wire bytes for a plain fetch-value request -/

/-- **C3 (counterexample).**  Encoding `MetaGet{key="mykey",
fetch_value=true}` does not produce `mg mykey v\r\n`: the `v` flag constant
carries a trailing space, so the actual bytes differ. -/
theorem c3_metaget_wire_counterexample :
    mgEncode { key := strBytes "mykey", fetchValue := true } ≠
      Except.ok (strBytes "mg mykey v\r\n") := by
  have h : mgEncode { key := strBytes "mykey", fetchValue := true } =
      Except.ok (strBytes "mg mykey v \r\n") := by
    simp [mgEncode, writeKey, isLegalMemcacheKey, legalKeyLoop,
      utf8DecodeRune, strBytes, writeOpaque, writeCasOverride,
      writeRecacheTTL, writeBlockTTL, writeTTL]
  rw [h]
  intro hc
  rw [Except.ok.injEq] at hc
  exact absurd hc (by decide)

/-- **C3 (amended).**  Encoding a MetaGet request with key `"mykey"` and
`fetch_value` set (all other fields at their `Reset` defaults) produces
exactly the bytes `mg mykey v \r\n` — with a space between the `v` token
and the CRLF. -/
theorem c3_metaget_wire_bytes :
    mgEncode { key := strBytes "mykey", fetchValue := true } =
      Except.ok (strBytes "mg mykey v \r\n") := by
  simp [mgEncode, writeKey, isLegalMemcacheKey, legalKeyLoop,
    utf8DecodeRune, strBytes, writeOpaque, writeCasOverride,
    writeRecacheTTL, writeBlockTTL, writeTTL]

/-! ### C5 — opaque counter -/

/-- **C5.**  `next()` is a single fetch-add of 1 returning the
post-increment value (hence `≥ 1` while the counter has not wrapped), and
`next_n(n)` is a single fetch-add of `n` that advances the counter by
exactly `n` and returns the pre-call value plus one, so the contiguous
range `[v+1, v+n]` is reserved. -/
theorem c5_opaque_counter :
    (∀ v : Nat, v + 1 < U64 →
      nextOpaque v = (v + 1, v + 1) ∧ 1 ≤ (nextOpaque v).1) ∧
    (∀ v n : Nat, 1 ≤ n → v + n < U64 →
      nextNOpaques n v = (v + 1, v + n)) := by
  constructor
  · intro v h
    have h1 : (v + 1) % U64 = v + 1 := Nat.mod_eq_of_lt h
    constructor
    · simp [nextOpaque, h1]
    · simp [nextOpaque, h1]
  · intro v n hn h
    have hnU : n < U64 := by omega
    have h1 : (v + n) % U64 = v + n := Nat.mod_eq_of_lt h
    have h2 : n % U64 = n := Nat.mod_eq_of_lt hnU
    simp only [nextNOpaques, h1, h2]
    have h3 : v + n + (U64 - n) + 1 = U64 + (v + 1) := by omega
    rw [h3, Nat.add_mod_left, Nat.mod_eq_of_lt (by omega)]

/-- Witness for C5 at `v = 0`, `n = 3`: `next` returns 1 and `next_n(3)`
returns 1 leaving the counter at 3 (the values the repository's own
counter tests check). -/
theorem c5_opaque_counter_witness :
    nextOpaque 0 = (1, 1) ∧ nextNOpaques 3 0 = (1, 3) :=
  ⟨(c5_opaque_counter.1 0 (by norm_num [U64])).1,
    c5_opaque_counter.2 0 3 (by norm_num) (by norm_num [U64])⟩

/-! ### C4 — token emission order -/

/-- **C4.**  Whenever the corresponding tokens are emitted at all:
the `ms` encoder emits the mode token immediately before the `T` (TTL)
token; the `mg` encoder emits `N` (block-TTL) before `t`
(fetch-remaining-TTL) and `T` (update-TTL) immediately before `t`; and the
`ma` encoder emits `T` (update-TTL) immediately before `N` (block-TTL).
Order is expressed by decomposing the wire bytes, with the literal token
bytes (`T` = 84, `N` = 78, `t ` = `[116, 32]`) in emission position. -/
theorem c4_token_emission_order :
    (∀ (e : MetaSetEncoder) (out : List Nat), msEncode e = Except.ok out →
      e.mode ≠ .noMode → 0 ≤ e.ttl →
      ∃ p q, out = p ++ msModeBytes e.mode ++
        (84 :: natDigits e.ttl.toNat ++ [32]) ++ q) ∧
    (∀ (e : MetaGetEncoder) (out : List Nat), mgEncode e = Except.ok out →
      0 ≤ e.blockTTL → e.fetchRemainingTTL = true →
      ∃ p q r, out = p ++ (78 :: natDigits e.blockTTL.toNat ++ [32]) ++ q ++
        strBytes "t " ++ r) ∧
    (∀ (e : MetaGetEncoder) (out : List Nat), mgEncode e = Except.ok out →
      0 ≤ e.updateTTL → e.fetchRemainingTTL = true →
      ∃ p q, out = p ++ (84 :: natDigits e.updateTTL.toNat ++ [32]) ++
        strBytes "t " ++ q) ∧
    (∀ (e : MetaArithmeticEncoder) (out : List Nat), maEncode e = Except.ok out →
      0 ≤ e.ttl → 0 ≤ e.blockTTL →
      ∃ p q, out = p ++ (84 :: natDigits e.ttl.toNat ++ [32]) ++
        (78 :: natDigits e.blockTTL.toNat ++ [32]) ++ q) := by
  refine ⟨?_, ?_, ?_, ?_⟩
  · intro e out hok hmode httl
    rcases hwk : writeKey e.key with msg | kb
    · rw [msEncode, hwk] at hok; cases hok
    · rw [msEncode, hwk] at hok
      rw [Except.ok.injEq] at hok
      refine ⟨strBytes "ms " ++ kb ++ natDigits e.value.length ++ [32] ++
        (if e.base64EncodedKey then strBytes "b " else []) ++
        (if e.fetchCasId then strBytes "c " else []) ++
        (if e.invalidate then strBytes "I " else []) ++
        (if e.fetchKey then strBytes "k " else []) ++
        (if e.fetchItemSize then strBytes "s " else []),
        writeCasId e.casId ++ writeCasOverride e.casOverride ++
        writeClientFlags e.clientFlags ++ writeBlockTTL e.blockTTL ++
        writeOpaque e.opaqueVal ++ strBytes "\r\n" ++ e.value ++
        strBytes "\r\n", ?_⟩
      rw [← hok, writeTTL, if_pos httl]
      simp [List.append_assoc]
  · intro e out hok hbttl hfrt
    rcases hwk : writeKey e.key with msg | kb
    · rw [mgEncode, hwk] at hok; cases hok
    · rw [mgEncode, hwk] at hok
      rw [Except.ok.injEq] at hok
      refine ⟨strBytes "mg " ++ kb ++
        (if e.base64EncodedKey then strBytes "b " else []) ++
        (if e.fetchCasId then strBytes "c " else []) ++
        (if e.fetchClientFlags then strBytes "f " else []) ++
        (if e.fetchItemHitBefore then strBytes "h " else []) ++
        (if e.fetchKey then strBytes "k " else []) ++
        (if e.fetchLastAccessedTime then strBytes "l " else []) ++
        (if e.fetchItemSizeInBytes then strBytes "s " else []) ++
        writeCasOverride e.casOverride ++ writeRecacheTTL e.recacheTTL,
        writeTTL e.updateTTL,
        (if e.preventLRUBump then strBytes "u " else []) ++
        (if e.fetchValue then strBytes "v " else []) ++
        writeOpaque e.opaqueVal ++ strBytes "\r\n", ?_⟩
      rw [← hok, writeBlockTTL, if_pos hbttl, hfrt, if_pos rfl]
      simp [List.append_assoc]
  · intro e out hok httl hfrt
    rcases hwk : writeKey e.key with msg | kb
    · rw [mgEncode, hwk] at hok; cases hok
    · rw [mgEncode, hwk] at hok
      rw [Except.ok.injEq] at hok
      refine ⟨strBytes "mg " ++ kb ++
        (if e.base64EncodedKey then strBytes "b " else []) ++
        (if e.fetchCasId then strBytes "c " else []) ++
        (if e.fetchClientFlags then strBytes "f " else []) ++
        (if e.fetchItemHitBefore then strBytes "h " else []) ++
        (if e.fetchKey then strBytes "k " else []) ++
        (if e.fetchLastAccessedTime then strBytes "l " else []) ++
        (if e.fetchItemSizeInBytes then strBytes "s " else []) ++
        writeCasOverride e.casOverride ++ writeRecacheTTL e.recacheTTL ++
        writeBlockTTL e.blockTTL,
        (if e.preventLRUBump then strBytes "u " else []) ++
        (if e.fetchValue then strBytes "v " else []) ++
        writeOpaque e.opaqueVal ++ strBytes "\r\n", ?_⟩
      rw [← hok, writeTTL, if_pos httl, hfrt, if_pos rfl]
      simp [List.append_assoc]
  · intro e out hok httl hbttl
    rcases hwk : writeKey e.key with msg | kb
    · rw [maEncode, hwk] at hok; cases hok
    · rw [maEncode, hwk] at hok
      rw [Except.ok.injEq] at hok
      refine ⟨strBytes "ma " ++ kb ++
        (if e.decrement then strBytes "MD " else []) ++
        (if e.fetchRemainingTTL then strBytes "t " else []) ++
        (if e.fetchCasId then strBytes "c " else []) ++
        (if e.fetchValue then strBytes "v " else []) ++
        (if e.fetchKey then strBytes "k " else []) ++
        writeCasId e.casId ++ writeCasOverride e.casOverride,
        writeInitialValue e.initialValue ++ writeDelta e.delta ++
        writeOpaque e.opaqueVal ++ strBytes "\r\n", ?_⟩
      rw [← hok, writeTTL, if_pos httl, writeBlockTTL, if_pos hbttl]
      simp [List.append_assoc]

/-- Witness for C4: a concrete `ms` request with mode `add` and TTL 60
decomposes with the mode token ahead of the `T` token. -/
theorem c4_token_emission_order_witness :
    ∃ p q, strBytes "ms k 2 ME T60 \r\nhi\r\n" = p ++
      msModeBytes MetaSetMode.add ++ (84 :: natDigits ((60 : Int)).toNat ++
        [32]) ++ q := by
  have henc : msEncode { key := strBytes "k", value := strBytes "hi",
                         ttl := 60, mode := .add } =
      Except.ok (strBytes "ms k 2 ME T60 \r\nhi\r\n") := by
    simp [msEncode, writeKey, isLegalMemcacheKey, legalKeyLoop,
      utf8DecodeRune, strBytes, writeOpaque, writeCasOverride, writeCasId,
      writeClientFlags, writeBlockTTL, writeTTL, msModeBytes, natDigits]
  exact c4_token_emission_order.1
    { key := strBytes "k", value := strBytes "hi", ttl := 60, mode := .add }
    (strBytes "ms k 2 ME T60 \r\nhi\r\n") henc (by simp) (by norm_num)

/-! ### C7 — version decoder -/

theorem splitLine_append (pre rest : List Nat) (h : (10 : Nat) ∉ pre) :
    splitLine (pre ++ 10 :: rest) = some (pre ++ [10], rest) := by
  induction pre with
  | nil => simp [splitLine]
  | cons b t ih =>
    have hb : b ≠ 10 := by
      intro he; exact h (by simp [he])
    have ht : (10 : Nat) ∉ t := by
      intro hm; exact h (List.mem_cons_of_mem _ hm)
    simp only [List.cons_append, splitLine, hb, if_false, List.append_eq,
      ih ht]

/-- **C7.**  On an input whose first line is `pre ++ '\n'`, the version
decoder always records the full line (newline included) in `hdrLine`, and
it fails — with the dedicated non-version error — exactly when the line
does not start with the seven bytes `VERSION`; otherwise it succeeds
consuming exactly the line. -/
theorem c7_version_decoder :
    ∀ (d : VersionDecoder) (pre rest : List Nat), (10 : Nat) ∉ pre →
      (versionDecode d (pre ++ 10 :: rest)).1.hdrLine = pre ++ [10] ∧
      ((versionDecode d (pre ++ 10 :: rest)).2 = Except.ok rest ↔
        (strBytes "VERSION").isPrefixOf (pre ++ [10]) = true) ∧
      ((versionDecode d (pre ++ 10 :: rest)).2 =
          Except.error "expected VERSION prefix in response" ↔
        (strBytes "VERSION").isPrefixOf (pre ++ [10]) = false) := by
  intro d pre rest h
  rw [versionDecode, splitLine_append pre rest h]
  by_cases hp : (strBytes "VERSION").isPrefixOf (pre ++ [10])
  · simp [hp]
  · simp [hp]

/-- Witness for C7: the test vector `VERSION 1.6.9\r\n` is accepted and
stored; its header line is recorded verbatim. -/
theorem c7_version_decoder_witness :
    (versionDecode {} (strBytes "VERSION 1.6.9\r" ++ 10 :: [])).1.hdrLine =
      strBytes "VERSION 1.6.9\r" ++ [10] ∧
    (versionDecode {} (strBytes "VERSION 1.6.9\r" ++ 10 :: [])).2 =
      Except.ok [] :=
  have h := c7_version_decoder {} (strBytes "VERSION 1.6.9\r") []
    (by decide)
  ⟨h.1, h.2.1.mpr (by decide)⟩

/-! ### C8 — connection-level append -/

/-- **C8.**  `tcpConn.Append` never blocks: with the state lock held by a
transition it returns the changing-state error; with the lock free but the
state not `Connected` it returns the not-connected error (carrying that
state); with the lock free, state `Connected` and a full outbound channel
it returns the queue-full error; otherwise it succeeds, enqueuing the
link.  The four outcomes are distinct constructors of `AppendResult`. -/
theorem c8_conn_append_nonblocking (α : Type) :
    ∀ (c : TcpConn α) (link : α),
      (c.lockFree = false →
        tcpConnAppend c link = AppendResult.errChangingState) ∧
      (c.lockFree = true → c.state ≠ .connected →
        tcpConnAppend c link = AppendResult.errNotConnected c.state) ∧
      (c.lockFree = true → c.state = .connected →
        queueSize ≤ c.outbound.length →
        tcpConnAppend c link = AppendResult.errQueueFull) ∧
      (c.lockFree = true → c.state = .connected →
        c.outbound.length < queueSize →
        tcpConnAppend c link =
          AppendResult.okAppended
            { c with outbound := c.outbound ++ [link] }) := by
  intro c link
  refine ⟨?_, ?_, ?_, ?_⟩
  · intro h; simp [tcpConnAppend, h]
  · intro h hs; simp [tcpConnAppend, h, hs]
  · intro h hs hq
    have : ¬ c.outbound.length < queueSize := by omega
    simp [tcpConnAppend, h, hs, this]
  · intro h hs hq; simp [tcpConnAppend, h, hs, hq]

/-- Witness for C8: a connected, unlocked connection with an empty queue
accepts a link (and a locked one reports changing-state). -/
theorem c8_conn_append_nonblocking_witness :
    tcpConnAppend (⟨true, .connected, []⟩ : TcpConn Nat) 7 =
      AppendResult.okAppended ⟨true, .connected, [7]⟩ ∧
    tcpConnAppend (⟨false, .connected, []⟩ : TcpConn Nat) 7 =
      AppendResult.errChangingState :=
  ⟨(c8_conn_append_nonblocking Nat ⟨true, .connected, []⟩ 7).2.2.2
      rfl rfl (by norm_num [queueSize]),
    (c8_conn_append_nonblocking Nat ⟨false, .connected, []⟩ 7).1 rfl⟩

/-! ### C9 — list-level append -/

theorem listSweep_all_changing {α : Type} (conns : List (TcpConn α))
    (numConns : Nat) (link : α) :
    ∀ (fuel iter : Nat),
      (∀ j, 1 ≤ j → j ≤ fuel →
        tcpConnAppend (conns.getD ((iter + j) % numConns) dummyConn) link =
          AppendResult.errChangingState) →
      (listSweep conns numConns link iter fuel).1 =
        ListAppendResult.errBackendUnhealthy := by
  intro fuel
  induction fuel with
  | zero => intro iter _; rfl
  | succ f ih =>
    intro iter h
    have h1 := h 1 (by omega) (by omega)
    rw [listSweep]
    rw [show iter + 1 = iter + 1 from rfl] at h1
    rw [h1]
    exact ih (iter + 1) (fun j hj1 hj2 => by
      have := h (j + 1) (by omega) (by omega)
      rwa [show iter + (j + 1) = iter + 1 + j by omega] at this)

theorem listSweep_first_settles {α : Type} (conns : List (TcpConn α))
    (numConns : Nat) (link : α) :
    ∀ (k fuel iter : Nat), k < fuel →
      (∀ j, 1 ≤ j → j ≤ k →
        tcpConnAppend (conns.getD ((iter + j) % numConns) dummyConn) link =
          AppendResult.errChangingState) →
      tcpConnAppend (conns.getD ((iter + k + 1) % numConns) dummyConn)
          link ≠ AppendResult.errChangingState →
      (listSweep conns numConns link iter fuel).1 =
        ListAppendResult.fromConn
          (tcpConnAppend (conns.getD ((iter + k + 1) % numConns) dummyConn)
            link) := by
  intro k
  induction k with
  | zero =>
    intro fuel iter hk hall hne
    rw [show iter + 0 + 1 = iter + 1 by omega] at hne ⊢
    match fuel, hk with
    | f + 1, _ =>
      rw [listSweep]
      cases hres : tcpConnAppend
          (conns.getD ((iter + 1) % numConns) dummyConn) link with
      | errChangingState => exact absurd hres hne
      | okAppended c => simp [hres]
      | errNotConnected st => simp [hres]
      | errQueueFull => simp [hres]
  | succ k ih =>
    intro fuel iter hk hall hne
    match fuel, hk with
    | f + 1, _ =>
      have h1 := hall 1 (by omega) (by omega)
      rw [listSweep, h1]
      have hshift : iter + 1 + k + 1 = iter + (k + 1) + 1 := by omega
      have := ih f (iter + 1) (by omega)
        (fun j hj1 hj2 => by
          have := hall (j + 1) (by omega) (by omega)
          rwa [show iter + (j + 1) = iter + 1 + j by omega] at this)
        (by rwa [hshift])
      rwa [hshift] at this

/-- **C9.**  `tcpConnList.Append` probes connections at indices
`(iter+1) % n, (iter+2) % n, …` (one atomic increment of the iteration
counter per probe): the first probe that does not report changing-state
settles the call — its result, success or any other error, is returned
without trying further connections — and when all `numConns` consecutive
probes report changing-state the call returns the backend-unhealthy
error. -/
theorem c9_list_append (α : Type) :
    ∀ (t : TcpConnList α) (link : α),
      t.numConns = t.conns.length →
      ((∀ j, 1 ≤ j → j ≤ t.numConns →
        tcpConnAppend
          (t.conns.getD ((t.iterIdx + j) % t.numConns) dummyConn) link =
            AppendResult.errChangingState) →
        (listAppend t link).1 = ListAppendResult.errBackendUnhealthy) ∧
      (∀ k, k < t.numConns →
        (∀ j, 1 ≤ j → j ≤ k →
          tcpConnAppend
            (t.conns.getD ((t.iterIdx + j) % t.numConns) dummyConn) link =
              AppendResult.errChangingState) →
        tcpConnAppend
          (t.conns.getD ((t.iterIdx + k + 1) % t.numConns) dummyConn)
            link ≠ AppendResult.errChangingState →
        (listAppend t link).1 = ListAppendResult.fromConn
          (tcpConnAppend
            (t.conns.getD ((t.iterIdx + k + 1) % t.numConns) dummyConn)
            link)) := by
  intro t link _
  constructor
  · intro h
    exact listSweep_all_changing t.conns t.numConns link t.numConns
      t.iterIdx h
  · intro k hk hall hne
    exact listSweep_first_settles t.conns t.numConns link k t.numConns
      t.iterIdx hk hall hne

/-- Witness for C9: two connections, the first mid-transition
(changing-state) and the second free and connected; the sweep starting at
counter 1 probes index 0 (changing-state) then index 1 and returns its
success immediately. -/
theorem c9_list_append_witness :
    (listAppend (⟨2, [⟨false, .connected, []⟩, ⟨true, .connected, []⟩],
      1⟩ : TcpConnList Nat) 7).1 =
      ListAppendResult.fromConn
        (AppendResult.okAppended ⟨true, .connected, [7]⟩) := by
  have h := (c9_list_append Nat
    ⟨2, [⟨false, .connected, []⟩, ⟨true, .connected, []⟩], 1⟩ 7 rfl).2
    1 (by decide)
    (by
      intro j hj1 hj2
      have hj : j = 1 := by omega
      subst hj
      simp [tcpConnAppend])
    (by simp [tcpConnAppend, queueSize])
  rw [h]
  simp [tcpConnAppend, queueSize]

/-! ### C6 — bulk sentinel -/

theorem readMNResp_ok_iff (l tail : List Nat) :
    readMNResp l = Except.ok tail ↔ l = 77 :: 78 :: 13 :: 10 :: tail := by
  match l with
  | [] => simp [readMNResp]
  | b1 :: r1 =>
    by_cases h1 : b1 = 77
    · subst h1
      match r1 with
      | [] => simp [readMNResp]
      | b2 :: r2 =>
        by_cases h2 : b2 = 78
        · subst h2
          match r2 with
          | [] => simp [readMNResp, readCRLF]
          | b3 :: r3 =>
            by_cases h3 : b3 = 13
            · subst h3
              match r3 with
              | [] => simp [readMNResp, readCRLF]
              | b4 :: r4 =>
                by_cases h4 : b4 = 10
                · subst h4; simp [readMNResp, readCRLF]
                · simp [readMNResp, readCRLF, h4]
            · simp [readMNResp, readCRLF, h3]
        · simp [readMNResp, h2]
    · simp [readMNResp, h1]

theorem readMNResp_error_of_no_sentinel (l : List Nat)
    (h : ¬ ∃ tail, l = 77 :: 78 :: 13 :: 10 :: tail) :
    ∃ msg, readMNResp l = Except.error msg := by
  cases hr : readMNResp l with
  | error msg => exact ⟨msg, rfl⟩
  | ok tail => exact absurd ⟨tail, (readMNResp_ok_iff l tail).mp hr⟩ h

/-- **C6.**  Whenever the sub-decoder loop of the bulk decoder succeeds
leaving `rest` unread, the bulk decode consumes exactly the four literal
bytes `MN\r\n` from `rest`: it succeeds returning the tail iff `rest`
starts with that sentinel, and returns an error otherwise (missing or
malformed sentinel). -/
theorem c6_bulk_sentinel :
    ∀ (ds ds1 : List MetaGetDecoder) (input rest : List Nat),
      mgDecodeAll ds input = Except.ok (ds1, rest) →
      (∀ tail, rest = 77 :: 78 :: 13 :: 10 :: tail →
        bulkMgDecode ds input = Except.ok (ds1, tail)) ∧
      ((¬ ∃ tail, rest = 77 :: 78 :: 13 :: 10 :: tail) →
        ∃ msg, bulkMgDecode ds input = Except.error msg) := by
  intro ds ds1 input rest hall
  constructor
  · intro tail hrest
    rw [bulkMgDecode, hall, hrest]
    dsimp only
    rw [show readMNResp (77 :: 78 :: 13 :: 10 :: tail) = Except.ok tail
      from (readMNResp_ok_iff _ tail).mpr rfl]
  · intro hno
    obtain ⟨msg, hmsg⟩ := readMNResp_error_of_no_sentinel rest hno
    refine ⟨msg, ?_⟩
    rw [bulkMgDecode, hall]
    dsimp only
    rw [hmsg]

/-- Witness for C6: one sub-decoder reading `HD\r\n` followed by the
sentinel succeeds, consuming everything. -/
theorem c6_bulk_sentinel_witness :
    bulkMgDecode [{}] (strBytes "HD\r\nMN\r\n") =
      Except.ok ([(mgDecode {} (strBytes "HD\r\nMN\r\n")).1], []) := by
  have hall : mgDecodeAll [{}] (strBytes "HD\r\nMN\r\n") =
      Except.ok ([(mgDecode {} (strBytes "HD\r\nMN\r\n")).1],
        strBytes "MN\r\n") := by
    simp [mgDecodeAll, mgDecode, strBytes, splitLine, mcFields,
      isAsciiSpace, metaGetStatusFromHeader, mgProcessFields]
  have h := (c6_bulk_sentinel [{}]
    [(mgDecode {} (strBytes "HD\r\nMN\r\n")).1] (strBytes "HD\r\nMN\r\n")
    (strBytes "MN\r\n") hall).1 [] (by decide)
  exact h

/-! ### C2 — non-`VA` headers and the value block -/

/-- No token of the list starts with byte `x`. -/
def headNe (x : Nat) (toks : List (List Nat)) : Prop :=
  ∀ tok ∈ toks, tok.headD 0 ≠ x

/-- No token of the list starts with an ASCII digit. -/
def noDigitHead (toks : List (List Nat)) : Prop :=
  ∀ tok ∈ toks, isDigitByte (tok.headD 0) = false

/-- Frame facts about the `mg` header-token loop: the `value` field is
never touched; without a digit-led token the value size passes through
unchanged (or the loop errors); each letter-flag field (`O`, `c`, `t`,
`k`, `f`, `h`, `s`, `l`) is preserved when no token starts with its flag
letter; and the single-letter response flags preserve `recache` when
neither `W` nor `Z` occurs as a token and `stale` when `X` does not. -/
theorem mgProcessFields_frame (toks : List (List Nat)) :
    ∀ (d : MetaGetDecoder) (vs : Option Nat),
      (mgProcessFields d vs toks).1.value = d.value ∧
      (noDigitHead toks →
        (mgProcessFields d vs toks).2 = Except.ok vs ∨
          ∃ msg, (mgProcessFields d vs toks).2 = Except.error msg) ∧
      (headNe 79 toks →
        (mgProcessFields d vs toks).1.opaqueVal = d.opaqueVal) ∧
      (headNe 99 toks → (mgProcessFields d vs toks).1.casId = d.casId) ∧
      (headNe 116 toks →
        (mgProcessFields d vs toks).1.remainingTTLSeconds =
          d.remainingTTLSeconds) ∧
      (headNe 107 toks →
        (mgProcessFields d vs toks).1.itemKey = d.itemKey) ∧
      (headNe 102 toks →
        (mgProcessFields d vs toks).1.clientFlags = d.clientFlags) ∧
      (headNe 104 toks →
        (mgProcessFields d vs toks).1.isItemHitBefore =
          d.isItemHitBefore) ∧
      (headNe 115 toks →
        (mgProcessFields d vs toks).1.itemSizeInBytes =
          d.itemSizeInBytes) ∧
      (headNe 108 toks →
        (mgProcessFields d vs toks).1.timeSinceLastAccessedSeconds =
          d.timeSinceLastAccessedSeconds) ∧
      (([87] ∉ toks ∧ [90] ∉ toks) →
        (mgProcessFields d vs toks).1.recache = d.recache) ∧
      ([88] ∉ toks → (mgProcessFields d vs toks).1.stale = d.stale) := by
  induction toks with
  | nil =>
    intro d vs
    exact ⟨rfl, fun _ => Or.inl rfl, fun _ => rfl, fun _ => rfl,
      fun _ => rfl, fun _ => rfl, fun _ => rfl, fun _ => rfl,
      fun _ => rfl, fun _ => rfl, fun _ => rfl, fun _ => rfl⟩
  | cons tok rest ih =>
    intro d vs
    have tailND : noDigitHead (tok :: rest) → noDigitHead rest :=
      fun h t ht => h t (List.mem_cons_of_mem _ ht)
    have tailNe : ∀ x, headNe x (tok :: rest) → headNe x rest :=
      fun x h t ht => h t (List.mem_cons_of_mem _ ht)
    have tailMem : ∀ x : List Nat, x ∉ (tok :: rest) → x ∉ rest :=
      fun x h hm => h (List.mem_cons_of_mem _ hm)
    match tok with
    | [] =>
      obtain ⟨i1, i2, i3, i4, i5, i6, i7, i8, i9, i10, i11, i12⟩ :=
        ih d vs
      exact ⟨i1,
        fun h => i2 (tailND h),
        fun h => i3 (tailNe _ h),
        fun h => i4 (tailNe _ h),
        fun h => i5 (tailNe _ h),
        fun h => i6 (tailNe _ h),
        fun h => i7 (tailNe _ h),
        fun h => i8 (tailNe _ h),
        fun h => i9 (tailNe _ h),
        fun h => i10 (tailNe _ h),
        fun h => i11 ⟨tailMem _ h.1, tailMem _ h.2⟩,
        fun h => i12 (tailMem _ h)⟩
    | c :: arg =>
      simp only [mgProcessFields]
      by_cases h1 : vs = none ∧ isDigitByte c = true
      · rw [if_pos h1]
        cases hp : parseAtoi (c :: arg) with
        | none =>
          exact ⟨rfl, fun _ => Or.inr ⟨_, rfl⟩, fun _ => rfl,
            fun _ => rfl, fun _ => rfl, fun _ => rfl, fun _ => rfl,
            fun _ => rfl, fun _ => rfl, fun _ => rfl, fun _ => rfl,
            fun _ => rfl⟩
        | some v =>
          obtain ⟨i1, i2, i3, i4, i5, i6, i7, i8, i9, i10, i11, i12⟩ :=
            ih d (some v.toNat)
          exact ⟨i1,
            fun h => absurd (h (c :: arg) (List.mem_cons_self _ _))
              (by simp [h1.2]),
            fun h => i3 (tailNe _ h),
            fun h => i4 (tailNe _ h),
            fun h => i5 (tailNe _ h),
            fun h => i6 (tailNe _ h),
            fun h => i7 (tailNe _ h),
            fun h => i8 (tailNe _ h),
            fun h => i9 (tailNe _ h),
            fun h => i10 (tailNe _ h),
            fun h => i11 ⟨tailMem _ h.1, tailMem _ h.2⟩,
            fun h => i12 (tailMem _ h)⟩
      · rw [if_neg h1]
        by_cases h2 : arg = []
        · rw [if_pos h2]
          by_cases hW : c = 87
          · rw [if_pos hW]
            obtain ⟨i1, i2, i3, i4, i5, i6, i7, i8, i9, i10, i11, i12⟩ :=
              ih { d with recache := .won } vs
            exact ⟨i1,
              fun h => i2 (tailND h),
              fun h => i3 (tailNe _ h),
              fun h => i4 (tailNe _ h),
              fun h => i5 (tailNe _ h),
              fun h => i6 (tailNe _ h),
              fun h => i7 (tailNe _ h),
              fun h => i8 (tailNe _ h),
              fun h => i9 (tailNe _ h),
              fun h => i10 (tailNe _ h),
              fun h => absurd (show ([87] : List Nat) ∈ (c :: arg) :: rest
                by rw [hW, h2]; exact List.mem_cons_self _ _) h.1,
              fun h => i12 (tailMem _ h)⟩
          · rw [if_neg hW]
            by_cases hX : c = 88
            · rw [if_pos hX]
              obtain ⟨i1, i2, i3, i4, i5, i6, i7, i8, i9, i10, i11, i12⟩ :=
                ih { d with stale := true } vs
              exact ⟨i1,
                fun h => i2 (tailND h),
                fun h => i3 (tailNe _ h),
                fun h => i4 (tailNe _ h),
                fun h => i5 (tailNe _ h),
                fun h => i6 (tailNe _ h),
                fun h => i7 (tailNe _ h),
                fun h => i8 (tailNe _ h),
                fun h => i9 (tailNe _ h),
                fun h => i10 (tailNe _ h),
                fun h => i11 ⟨tailMem _ h.1, tailMem _ h.2⟩,
                fun h => absurd (show ([88] : List Nat) ∈ (c :: arg) :: rest
                  by rw [hX, h2]; exact List.mem_cons_self _ _) h⟩
            · rw [if_neg hX]
              by_cases hZ : c = 90
              · rw [if_pos hZ]
                obtain ⟨i1, i2, i3, i4, i5, i6, i7, i8, i9, i10, i11, i12⟩ :=
                  ih { d with recache := .alreadySent } vs
                exact ⟨i1,
                  fun h => i2 (tailND h),
                  fun h => i3 (tailNe _ h),
                  fun h => i4 (tailNe _ h),
                  fun h => i5 (tailNe _ h),
                  fun h => i6 (tailNe _ h),
                  fun h => i7 (tailNe _ h),
                  fun h => i8 (tailNe _ h),
                  fun h => i9 (tailNe _ h),
                  fun h => i10 (tailNe _ h),
                  fun h => absurd (show ([90] : List Nat) ∈ (c :: arg) :: rest
                    by rw [hZ, h2]; exact List.mem_cons_self _ _) h.2,
                  fun h => i12 (tailMem _ h)⟩
              · rw [if_neg hZ]
                obtain ⟨i1, i2, i3, i4, i5, i6, i7, i8, i9, i10, i11, i12⟩ :=
                  ih d vs
                exact ⟨i1,
                  fun h => i2 (tailND h),
                  fun h => i3 (tailNe _ h),
                  fun h => i4 (tailNe _ h),
                  fun h => i5 (tailNe _ h),
                  fun h => i6 (tailNe _ h),
                  fun h => i7 (tailNe _ h),
                  fun h => i8 (tailNe _ h),
                  fun h => i9 (tailNe _ h),
                  fun h => i10 (tailNe _ h),
                  fun h => i11 ⟨tailMem _ h.1, tailMem _ h.2⟩,
                  fun h => i12 (tailMem _ h)⟩
        · rw [if_neg h2]
          by_cases hO : c = 79
          · rw [if_pos hO]
            cases hp : parseUint64 arg with
            | none =>
              exact ⟨rfl, fun _ => Or.inr ⟨_, rfl⟩, fun _ => rfl,
                fun _ => rfl, fun _ => rfl, fun _ => rfl, fun _ => rfl,
                fun _ => rfl, fun _ => rfl, fun _ => rfl, fun _ => rfl,
                fun _ => rfl⟩
            | some o =>
              obtain ⟨i1, i2, i3, i4, i5, i6, i7, i8, i9, i10, i11, i12⟩ :=
                ih { d with opaqueVal := o } vs
              exact ⟨i1,
                fun h => i2 (tailND h),
                fun h => absurd (show ((c :: arg).headD 0) = 79 by simp [hO])
                  (h _ (List.mem_cons_self _ _)),
                fun h => i4 (tailNe _ h),
                fun h => i5 (tailNe _ h),
                fun h => i6 (tailNe _ h),
                fun h => i7 (tailNe _ h),
                fun h => i8 (tailNe _ h),
                fun h => i9 (tailNe _ h),
                fun h => i10 (tailNe _ h),
                fun h => i11 ⟨tailMem _ h.1, tailMem _ h.2⟩,
                fun h => i12 (tailMem _ h)⟩
          · rw [if_neg hO]
            by_cases ht : c = 116
            · rw [if_pos ht]
              cases hp : parseInt32 arg with
              | none =>
                exact ⟨rfl, fun _ => Or.inr ⟨_, rfl⟩, fun _ => rfl,
                  fun _ => rfl, fun _ => rfl, fun _ => rfl, fun _ => rfl,
                  fun _ => rfl, fun _ => rfl, fun _ => rfl, fun _ => rfl,
                  fun _ => rfl⟩
              | some t =>
                obtain ⟨i1, i2, i3, i4, i5, i6, i7, i8, i9, i10, i11, i12⟩ :=
                  ih { d with remainingTTLSeconds := t } vs
                exact ⟨i1,
                  fun h => i2 (tailND h),
                  fun h => i3 (tailNe _ h),
                  fun h => i4 (tailNe _ h),
                  fun h => absurd (show ((c :: arg).headD 0) = 116 by simp [ht])
                    (h _ (List.mem_cons_self _ _)),
                  fun h => i6 (tailNe _ h),
                  fun h => i7 (tailNe _ h),
                  fun h => i8 (tailNe _ h),
                  fun h => i9 (tailNe _ h),
                  fun h => i10 (tailNe _ h),
                  fun h => i11 ⟨tailMem _ h.1, tailMem _ h.2⟩,
                  fun h => i12 (tailMem _ h)⟩
            · rw [if_neg ht]
              by_cases hcas : c = 99
              · rw [if_pos hcas]
                cases hp : parseUint64 arg with
                | none =>
                  exact ⟨rfl, fun _ => Or.inr ⟨_, rfl⟩, fun _ => rfl,
                    fun _ => rfl, fun _ => rfl, fun _ => rfl, fun _ => rfl,
                    fun _ => rfl, fun _ => rfl, fun _ => rfl, fun _ => rfl,
                    fun _ => rfl⟩
                | some v =>
                  obtain ⟨i1, i2, i3, i4, i5, i6, i7, i8, i9, i10, i11, i12⟩ :=
                    ih { d with casId := v } vs
                  exact ⟨i1,
                    fun h => i2 (tailND h),
                    fun h => i3 (tailNe _ h),
                    fun h => absurd (show ((c :: arg).headD 0) = 99 by simp [hcas])
                      (h _ (List.mem_cons_self _ _)),
                    fun h => i5 (tailNe _ h),
                    fun h => i6 (tailNe _ h),
                    fun h => i7 (tailNe _ h),
                    fun h => i8 (tailNe _ h),
                    fun h => i9 (tailNe _ h),
                    fun h => i10 (tailNe _ h),
                    fun h => i11 ⟨tailMem _ h.1, tailMem _ h.2⟩,
                    fun h => i12 (tailMem _ h)⟩
              · rw [if_neg hcas]
                by_cases hf : c = 102
                · rw [if_pos hf]
                  cases hp : parseUint64 arg with
                  | none =>
                    exact ⟨rfl, fun _ => Or.inr ⟨_, rfl⟩, fun _ => rfl,
                      fun _ => rfl, fun _ => rfl, fun _ => rfl, fun _ => rfl,
                      fun _ => rfl, fun _ => rfl, fun _ => rfl, fun _ => rfl,
                      fun _ => rfl⟩
                  | some v =>
                    obtain ⟨i1, i2, i3, i4, i5, i6, i7, i8, i9, i10, i11, i12⟩ :=
                      ih { d with clientFlags := v } vs
                    exact ⟨i1,
                      fun h => i2 (tailND h),
                      fun h => i3 (tailNe _ h),
                      fun h => i4 (tailNe _ h),
                      fun h => i5 (tailNe _ h),
                      fun h => i6 (tailNe _ h),
                      fun h => absurd (show ((c :: arg).headD 0) = 102 by simp [hf])
                        (h _ (List.mem_cons_self _ _)),
                      fun h => i8 (tailNe _ h),
                      fun h => i9 (tailNe _ h),
                      fun h => i10 (tailNe _ h),
                      fun h => i11 ⟨tailMem _ h.1, tailMem _ h.2⟩,
                      fun h => i12 (tailMem _ h)⟩
                · rw [if_neg hf]
                  by_cases hh : c = 104
                  · rw [if_pos hh]
                    by_cases h49 : arg = [49]
                    · rw [if_pos h49]
                      obtain ⟨i1, i2, i3, i4, i5, i6, i7, i8, i9, i10, i11, i12⟩ :=
                        ih { d with isItemHitBefore := true } vs
                      exact ⟨i1,
                        fun h => i2 (tailND h),
                        fun h => i3 (tailNe _ h),
                        fun h => i4 (tailNe _ h),
                        fun h => i5 (tailNe _ h),
                        fun h => i6 (tailNe _ h),
                        fun h => i7 (tailNe _ h),
                        fun h => absurd (show ((c :: arg).headD 0) = 104 by simp [hh])
                          (h _ (List.mem_cons_self _ _)),
                        fun h => i9 (tailNe _ h),
                        fun h => i10 (tailNe _ h),
                        fun h => i11 ⟨tailMem _ h.1, tailMem _ h.2⟩,
                        fun h => i12 (tailMem _ h)⟩
                    · rw [if_neg h49]
                      obtain ⟨i1, i2, i3, i4, i5, i6, i7, i8, i9, i10, i11, i12⟩ :=
                        ih d vs
                      exact ⟨i1,
                        fun h => i2 (tailND h),
                        fun h => i3 (tailNe _ h),
                        fun h => i4 (tailNe _ h),
                        fun h => i5 (tailNe _ h),
                        fun h => i6 (tailNe _ h),
                        fun h => i7 (tailNe _ h),
                        fun h => i8 (tailNe _ h),
                        fun h => i9 (tailNe _ h),
                        fun h => i10 (tailNe _ h),
                        fun h => i11 ⟨tailMem _ h.1, tailMem _ h.2⟩,
                        fun h => i12 (tailMem _ h)⟩
                  · rw [if_neg hh]
                    by_cases hk : c = 107
                    · rw [if_pos hk]
                      obtain ⟨i1, i2, i3, i4, i5, i6, i7, i8, i9, i10, i11, i12⟩ :=
                        ih { d with itemKey := arg } vs
                      exact ⟨i1,
                        fun h => i2 (tailND h),
                        fun h => i3 (tailNe _ h),
                        fun h => i4 (tailNe _ h),
                        fun h => i5 (tailNe _ h),
                        fun h => absurd (show ((c :: arg).headD 0) = 107 by simp [hk])
                          (h _ (List.mem_cons_self _ _)),
                        fun h => i7 (tailNe _ h),
                        fun h => i8 (tailNe _ h),
                        fun h => i9 (tailNe _ h),
                        fun h => i10 (tailNe _ h),
                        fun h => i11 ⟨tailMem _ h.1, tailMem _ h.2⟩,
                        fun h => i12 (tailMem _ h)⟩
                    · rw [if_neg hk]
                      by_cases hs : c = 115
                      · rw [if_pos hs]
                        cases hp : parseUint64 arg with
                        | none =>
                          exact ⟨rfl, fun _ => Or.inr ⟨_, rfl⟩, fun _ => rfl,
                            fun _ => rfl, fun _ => rfl, fun _ => rfl, fun _ => rfl,
                            fun _ => rfl, fun _ => rfl, fun _ => rfl, fun _ => rfl,
                            fun _ => rfl⟩
                        | some v =>
                          obtain ⟨i1, i2, i3, i4, i5, i6, i7, i8, i9, i10, i11, i12⟩ :=
                            ih { d with itemSizeInBytes := v } vs
                          exact ⟨i1,
                            fun h => i2 (tailND h),
                            fun h => i3 (tailNe _ h),
                            fun h => i4 (tailNe _ h),
                            fun h => i5 (tailNe _ h),
                            fun h => i6 (tailNe _ h),
                            fun h => i7 (tailNe _ h),
                            fun h => i8 (tailNe _ h),
                            fun h => absurd (show ((c :: arg).headD 0) = 115 by simp [hs])
                              (h _ (List.mem_cons_self _ _)),
                            fun h => i10 (tailNe _ h),
                            fun h => i11 ⟨tailMem _ h.1, tailMem _ h.2⟩,
                            fun h => i12 (tailMem _ h)⟩
                      · rw [if_neg hs]
                        by_cases hl : c = 108
                        · rw [if_pos hl]
                          cases hp : parseUint32 arg with
                          | none =>
                            exact ⟨rfl, fun _ => Or.inr ⟨_, rfl⟩, fun _ => rfl,
                              fun _ => rfl, fun _ => rfl, fun _ => rfl, fun _ => rfl,
                              fun _ => rfl, fun _ => rfl, fun _ => rfl, fun _ => rfl,
                              fun _ => rfl⟩
                          | some v =>
                            obtain ⟨i1, i2, i3, i4, i5, i6, i7, i8, i9, i10, i11, i12⟩ :=
                              ih { d with timeSinceLastAccessedSeconds := v } vs
                            exact ⟨i1,
                              fun h => i2 (tailND h),
                              fun h => i3 (tailNe _ h),
                              fun h => i4 (tailNe _ h),
                              fun h => i5 (tailNe _ h),
                              fun h => i6 (tailNe _ h),
                              fun h => i7 (tailNe _ h),
                              fun h => i8 (tailNe _ h),
                              fun h => i9 (tailNe _ h),
                              fun h => absurd (show ((c :: arg).headD 0) = 108 by simp [hl])
                                (h _ (List.mem_cons_self _ _)),
                              fun h => i11 ⟨tailMem _ h.1, tailMem _ h.2⟩,
                              fun h => i12 (tailMem _ h)⟩
                        · rw [if_neg hl]
                          obtain ⟨i1, i2, i3, i4, i5, i6, i7, i8, i9, i10, i11, i12⟩ :=
                            ih d vs
                          exact ⟨i1,
                            fun h => i2 (tailND h),
                            fun h => i3 (tailNe _ h),
                            fun h => i4 (tailNe _ h),
                            fun h => i5 (tailNe _ h),
                            fun h => i6 (tailNe _ h),
                            fun h => i7 (tailNe _ h),
                            fun h => i8 (tailNe _ h),
                            fun h => i9 (tailNe _ h),
                            fun h => i10 (tailNe _ h),
                            fun h => i11 ⟨tailMem _ h.1, tailMem _ h.2⟩,
                            fun h => i12 (tailMem _ h)⟩

/-- **C2 (counterexample).**  On the response `HD 2 \r\nab\r\n` — status
word `HD`, not `VA` — the decoder does *not* stop at the header: it reads
a 2-byte value block and its trailing CRLF, consuming the entire input
instead of leaving `ab\r\n` unread. -/
theorem c2_mg_value_block_counterexample :
    (mgDecode {} (strBytes "HD 2 \r\nab\r\n")).2 =
      Except.ok ([] : List Nat) ∧
    (mgDecode {} (strBytes "HD 2 \r\nab\r\n")).1.value =
      some (strBytes "ab") ∧
    (mgDecode {} (strBytes "HD 2 \r\nab\r\n")).1.status =
      MetadataStatus.cacheHit ∧
    ([] : List Nat) ≠ strBytes "ab\r\n" := by
  refine ⟨?_, ?_, ?_, by decide⟩ <;>
    simp [mgDecode, strBytes, splitLine, mcFields, isAsciiSpace,
      metaGetStatusFromHeader, mgProcessFields, parseAtoi, parseDigits,
      isDigitByte, digitsToNat, readValueBlock, readCRLF]

/-- **C2 (amended).**  For an `mg` response whose (ASCII) header line
contains no token starting with a decimal digit after the status word, a
successful decode consumes exactly the header line — whatever the status
word, the remainder of the input is untouched and the `value` field keeps
its prior contents.  (It is the presence of a digit-led size token, not
the `VA` status word, that triggers the value-block read.) -/
theorem c2_mg_header_only_decode :
    ∀ (d d1 : MetaGetDecoder) (line rest r : List Nat),
      (10 : Nat) ∉ line →
      (∀ b ∈ line, b < 0x80) →
      (∀ tok ∈ (mcFields (line ++ [10])).drop 1,
        isDigitByte (tok.headD 0) = false) →
      mgDecode d (line ++ 10 :: rest) = (d1, Except.ok r) →
      r = rest ∧ d1.value = d.value := by
  intro d d1 line rest r hnl _hascii hdig hdec
  rw [mgDecode, splitLine_append line rest hnl] at hdec
  dsimp only at hdec
  rcases hf : mcFields (line ++ [10]) with _ | ⟨st, toks⟩
  · rw [hf] at hdec
    dsimp only at hdec
    rw [Prod.mk.injEq, Except.ok.injEq] at hdec
    exact ⟨hdec.2.symm, by rw [← hdec.1]⟩
  · rw [hf] at hdec
    dsimp only at hdec
    by_cases hst : metaGetStatusFromHeader st = .invalid
    · rw [if_pos hst] at hdec
      rw [Prod.mk.injEq, Except.ok.injEq] at hdec
      exact ⟨hdec.2.symm, by rw [← hdec.1]⟩
    · rw [if_neg hst] at hdec
      have htoks : ∀ tok ∈ toks, isDigitByte (tok.headD 0) = false := by
        intro tok ht
        exact hdig tok (by rw [hf]; simpa using ht)
      rcases hpp : mgProcessFields { d with
          status := metaGetStatusFromHeader st } none toks with ⟨d2, res⟩
      obtain ⟨ifrV, ifrD, _, _, _, _⟩ := mgProcessFields_frame toks
        { d with status := metaGetStatusFromHeader st } none
      have hval : d2.value = d.value := by
        rw [hpp] at ifrV
        exact ifrV
      rcases ifrD htoks with hok | ⟨msg, herr⟩
      · rw [hpp] at hok hdec
        dsimp only at hok
        rw [hok] at hdec
        dsimp only at hdec
        rw [Prod.mk.injEq, Except.ok.injEq] at hdec
        exact ⟨hdec.2.symm, by rw [← hdec.1, hval]⟩
      · rw [hpp] at herr hdec
        dsimp only at herr
        rw [herr] at hdec
        dsimp only at hdec
        rw [Prod.mk.injEq] at hdec
        exact absurd hdec.2 (by simp)

/-- Witness for C2: decoding `EN O123123\r\n` followed by two unread bytes
leaves those bytes unread and the value field `nil`. -/
theorem c2_mg_header_only_decode_witness :
    (mgDecode {} (strBytes "EN O123123\r" ++ 10 :: [88, 89])).2 =
      Except.ok [88, 89] ∧
    (mgDecode {} (strBytes "EN O123123\r" ++ 10 :: [88, 89])).1.value =
      none := by
  have heval : mgDecode {} (strBytes "EN O123123\r" ++ 10 :: [88, 89]) =
      ({ status := .cacheMiss, opaqueVal := 123123 },
        Except.ok [88, 89]) := by
    simp [mgDecode, strBytes, splitLine, mcFields, isAsciiSpace,
      metaGetStatusFromHeader, mgProcessFields, parseUint64, parseDigits,
      isDigitByte, digitsToNat]
  have h := c2_mg_header_only_decode {}
    { status := .cacheMiss, opaqueVal := 123123 }
    (strBytes "EN O123123\r") [88, 89] [88, 89] (by decide) (by decide)
    (by simp [mcFields, strBytes, isAsciiSpace, isDigitByte]) heval
  rw [heval]
  exact ⟨rfl, h.2⟩

/-! ### C10 — decoders only overwrite fields whose tokens appear -/

/-- Frame facts for the `ms` header-token loop: opaque / cas / key fields
are preserved when no token starts with their flag letter. -/
theorem msProcessFields_frame (toks : List (List Nat)) :
    ∀ (d : MetaSetDecoder),
      (headNe 79 toks →
        (msProcessFields d toks).1.opaqueVal = d.opaqueVal) ∧
      (headNe 99 toks → (msProcessFields d toks).1.casId = d.casId) ∧
      (headNe 107 toks → (msProcessFields d toks).1.itemKey = d.itemKey) := by
  induction toks with
  | nil => intro d; exact ⟨fun _ => rfl, fun _ => rfl, fun _ => rfl⟩
  | cons tok rest ih =>
    intro d
    have tailNe : ∀ x, headNe x (tok :: rest) → headNe x rest :=
      fun x h t ht => h t (List.mem_cons_of_mem _ ht)
    match tok with
    | [] =>
      obtain ⟨i1, i2, i3⟩ := ih d
      exact ⟨fun h => i1 (tailNe _ h), fun h => i2 (tailNe _ h),
        fun h => i3 (tailNe _ h)⟩
    | c :: arg =>
      simp only [msProcessFields]
      by_cases hO : c = 79
      · rw [if_pos hO]
        cases hp : parseUint64 arg with
        | none => exact ⟨fun _ => rfl, fun _ => rfl, fun _ => rfl⟩
        | some o =>
          obtain ⟨i1, i2, i3⟩ := ih { d with opaqueVal := o }
          refine ⟨?_, fun h => i2 (tailNe _ h), fun h => i3 (tailNe _ h)⟩
          intro h
          exact absurd (show ((c :: arg).headD 0) = 79 by simp [hO])
            (h _ (List.mem_cons_self _ _))
      · rw [if_neg hO]
        by_cases hc : c = 99
        · rw [if_pos hc]
          cases hp : parseUint64 arg with
          | none => exact ⟨fun _ => rfl, fun _ => rfl, fun _ => rfl⟩
          | some v =>
            obtain ⟨i1, i2, i3⟩ := ih { d with casId := v }
            refine ⟨fun h => i1 (tailNe _ h), ?_,
              fun h => i3 (tailNe _ h)⟩
            intro h
            exact absurd (show ((c :: arg).headD 0) = 99 by simp [hc])
              (h _ (List.mem_cons_self _ _))
        · rw [if_neg hc]
          by_cases hk : c = 107
          · rw [if_pos hk]
            obtain ⟨i1, i2, i3⟩ := ih { d with itemKey := arg }
            refine ⟨fun h => i1 (tailNe _ h), fun h => i2 (tailNe _ h), ?_⟩
            intro h
            exact absurd (show ((c :: arg).headD 0) = 107 by simp [hk])
              (h _ (List.mem_cons_self _ _))
          · rw [if_neg hk]
            obtain ⟨i1, i2, i3⟩ := ih d
            exact ⟨fun h => i1 (tailNe _ h), fun h => i2 (tailNe _ h),
              fun h => i3 (tailNe _ h)⟩

/-- Frame facts for the `md` header-token loop: opaque / key fields are
preserved when no token starts with their flag letter. -/
theorem mdProcessFields_frame (toks : List (List Nat)) :
    ∀ (d : MetaDeleteDecoder),
      (headNe 79 toks →
        (mdProcessFields d toks).1.opaqueVal = d.opaqueVal) ∧
      (headNe 107 toks → (mdProcessFields d toks).1.itemKey = d.itemKey) := by
  induction toks with
  | nil => intro d; exact ⟨fun _ => rfl, fun _ => rfl⟩
  | cons tok rest ih =>
    intro d
    have tailNe : ∀ x, headNe x (tok :: rest) → headNe x rest :=
      fun x h t ht => h t (List.mem_cons_of_mem _ ht)
    match tok with
    | [] =>
      obtain ⟨i1, i2⟩ := ih d
      exact ⟨fun h => i1 (tailNe _ h), fun h => i2 (tailNe _ h)⟩
    | c :: arg =>
      simp only [mdProcessFields]
      by_cases hO : c = 79
      · rw [if_pos hO]
        cases hp : parseUint64 arg with
        | none => exact ⟨fun _ => rfl, fun _ => rfl⟩
        | some o =>
          obtain ⟨i1, i2⟩ := ih { d with opaqueVal := o }
          refine ⟨?_, fun h => i2 (tailNe _ h)⟩
          intro h
          exact absurd (show ((c :: arg).headD 0) = 79 by simp [hO])
            (h _ (List.mem_cons_self _ _))
      · rw [if_neg hO]
        by_cases hk : c = 107
        · rw [if_pos hk]
          obtain ⟨i1, i2⟩ := ih { d with itemKey := arg }
          refine ⟨fun h => i1 (tailNe _ h), ?_⟩
          intro h
          exact absurd (show ((c :: arg).headD 0) = 107 by simp [hk])
            (h _ (List.mem_cons_self _ _))
        · rw [if_neg hk]
          obtain ⟨i1, i2⟩ := ih d
          exact ⟨fun h => i1 (tailNe _ h), fun h => i2 (tailNe _ h)⟩

/-- Frame facts for the `ma` header-token loop, as for `mg`. -/
theorem maProcessFields_frame (toks : List (List Nat)) :
    ∀ (d : MetaArithmeticDecoder) (vs : Option Nat),
      (maProcessFields d vs toks).1.value = d.value ∧
      (maProcessFields d vs toks).1.valueUInt64 = d.valueUInt64 ∧
      (noDigitHead toks →
        (maProcessFields d vs toks).2 = Except.ok vs ∨
          ∃ msg, (maProcessFields d vs toks).2 = Except.error msg) ∧
      (headNe 79 toks →
        (maProcessFields d vs toks).1.opaqueVal = d.opaqueVal) ∧
      (headNe 99 toks → (maProcessFields d vs toks).1.casId = d.casId) ∧
      (headNe 116 toks →
        (maProcessFields d vs toks).1.remainingTTLSeconds =
          d.remainingTTLSeconds) ∧
      (headNe 107 toks →
        (maProcessFields d vs toks).1.itemKey = d.itemKey) := by
  induction toks with
  | nil =>
    intro d vs
    exact ⟨rfl, rfl, fun _ => Or.inl rfl, fun _ => rfl, fun _ => rfl,
      fun _ => rfl, fun _ => rfl⟩
  | cons tok rest ih =>
    intro d vs
    have tailND : noDigitHead (tok :: rest) → noDigitHead rest :=
      fun h t ht => h t (List.mem_cons_of_mem _ ht)
    have tailNe : ∀ x, headNe x (tok :: rest) → headNe x rest :=
      fun x h t ht => h t (List.mem_cons_of_mem _ ht)
    match tok with
    | [] =>
      obtain ⟨i1, i2, i3, i4, i5, i6, i7⟩ := ih d vs
      exact ⟨i1, i2, fun h => i3 (tailND h), fun h => i4 (tailNe _ h),
        fun h => i5 (tailNe _ h), fun h => i6 (tailNe _ h),
        fun h => i7 (tailNe _ h)⟩
    | c :: arg =>
      simp only [maProcessFields]
      by_cases h1 : vs = none ∧ isDigitByte c = true
      · rw [if_pos h1]
        cases hp : parseAtoi (c :: arg) with
        | none =>
          exact ⟨rfl, rfl, fun _ => Or.inr ⟨_, rfl⟩, fun _ => rfl,
            fun _ => rfl, fun _ => rfl, fun _ => rfl⟩
        | some v =>
          obtain ⟨i1, i2, i3, i4, i5, i6, i7⟩ := ih d (some v.toNat)
          refine ⟨i1, i2, ?_, fun h => i4 (tailNe _ h),
            fun h => i5 (tailNe _ h), fun h => i6 (tailNe _ h),
            fun h => i7 (tailNe _ h)⟩
          intro h
          exact absurd (h (c :: arg) (List.mem_cons_self _ _))
            (by simp [h1.2])
      · rw [if_neg h1]
        by_cases hO : c = 79
        · rw [if_pos hO]
          cases hp : parseUint64 arg with
          | none =>
            exact ⟨rfl, rfl, fun _ => Or.inr ⟨_, rfl⟩, fun _ => rfl,
              fun _ => rfl, fun _ => rfl, fun _ => rfl⟩
          | some o =>
            obtain ⟨i1, i2, i3, i4, i5, i6, i7⟩ :=
              ih { d with opaqueVal := o } vs
            refine ⟨i1, i2, fun h => i3 (tailND h), ?_,
              fun h => i5 (tailNe _ h), fun h => i6 (tailNe _ h),
              fun h => i7 (tailNe _ h)⟩
            intro h
            exact absurd (show ((c :: arg).headD 0) = 79 by simp [hO])
              (h _ (List.mem_cons_self _ _))
        · rw [if_neg hO]
          by_cases ht : c = 116
          · rw [if_pos ht]
            cases hp : parseInt32 arg with
            | none =>
              exact ⟨rfl, rfl, fun _ => Or.inr ⟨_, rfl⟩, fun _ => rfl,
                fun _ => rfl, fun _ => rfl, fun _ => rfl⟩
            | some t =>
              obtain ⟨i1, i2, i3, i4, i5, i6, i7⟩ :=
                ih { d with remainingTTLSeconds := t } vs
              refine ⟨i1, i2, fun h => i3 (tailND h),
                fun h => i4 (tailNe _ h), fun h => i5 (tailNe _ h), ?_,
                fun h => i7 (tailNe _ h)⟩
              intro h
              exact absurd (show ((c :: arg).headD 0) = 116 by simp [ht])
                (h _ (List.mem_cons_self _ _))
          · rw [if_neg ht]
            by_cases hc : c = 99
            · rw [if_pos hc]
              cases hp : parseUint64 arg with
              | none =>
                exact ⟨rfl, rfl, fun _ => Or.inr ⟨_, rfl⟩, fun _ => rfl,
                  fun _ => rfl, fun _ => rfl, fun _ => rfl⟩
              | some v =>
                obtain ⟨i1, i2, i3, i4, i5, i6, i7⟩ :=
                  ih { d with casId := v } vs
                refine ⟨i1, i2, fun h => i3 (tailND h),
                  fun h => i4 (tailNe _ h), ?_, fun h => i6 (tailNe _ h),
                  fun h => i7 (tailNe _ h)⟩
                intro h
                exact absurd (show ((c :: arg).headD 0) = 99 by simp [hc])
                  (h _ (List.mem_cons_self _ _))
            · rw [if_neg hc]
              by_cases hk : c = 107
              · rw [if_pos hk]
                obtain ⟨i1, i2, i3, i4, i5, i6, i7⟩ :=
                  ih { d with itemKey := arg } vs
                refine ⟨i1, i2, fun h => i3 (tailND h),
                  fun h => i4 (tailNe _ h), fun h => i5 (tailNe _ h),
                  fun h => i6 (tailNe _ h), ?_⟩
                intro h
                exact absurd (show ((c :: arg).headD 0) = 107 by simp [hk])
                  (h _ (List.mem_cons_self _ _))
              · rw [if_neg hk]
                obtain ⟨i1, i2, i3, i4, i5, i6, i7⟩ := ih d vs
                exact ⟨i1, i2, fun h => i3 (tailND h),
                  fun h => i4 (tailNe _ h), fun h => i5 (tailNe _ h),
                  fun h => i6 (tailNe _ h), fun h => i7 (tailNe _ h)⟩

/-- Decode-level frame facts for `mg`: every field whose flag token does
not appear on the header line keeps its prior value, across success and
error paths alike; the `value` field additionally needs the absence of a
digit-led size token. -/
theorem mgDecode_frame :
    ∀ (d : MetaGetDecoder) (line rest : List Nat), (10 : Nat) ∉ line →
      (∀ b ∈ line, b < 0x80) →
      (headNe 79 ((mcFields (line ++ [10])).drop 1) →
        (mgDecode d (line ++ 10 :: rest)).1.opaqueVal = d.opaqueVal) ∧
      (headNe 99 ((mcFields (line ++ [10])).drop 1) →
        (mgDecode d (line ++ 10 :: rest)).1.casId = d.casId) ∧
      (headNe 116 ((mcFields (line ++ [10])).drop 1) →
        (mgDecode d (line ++ 10 :: rest)).1.remainingTTLSeconds =
          d.remainingTTLSeconds) ∧
      (headNe 107 ((mcFields (line ++ [10])).drop 1) →
        (mgDecode d (line ++ 10 :: rest)).1.itemKey = d.itemKey) ∧
      (headNe 102 ((mcFields (line ++ [10])).drop 1) →
        (mgDecode d (line ++ 10 :: rest)).1.clientFlags = d.clientFlags) ∧
      (headNe 104 ((mcFields (line ++ [10])).drop 1) →
        (mgDecode d (line ++ 10 :: rest)).1.isItemHitBefore =
          d.isItemHitBefore) ∧
      (headNe 115 ((mcFields (line ++ [10])).drop 1) →
        (mgDecode d (line ++ 10 :: rest)).1.itemSizeInBytes =
          d.itemSizeInBytes) ∧
      (headNe 108 ((mcFields (line ++ [10])).drop 1) →
        (mgDecode d (line ++ 10 :: rest)).1.timeSinceLastAccessedSeconds =
          d.timeSinceLastAccessedSeconds) ∧
      (([87] ∉ (mcFields (line ++ [10])).drop 1 ∧
          [90] ∉ (mcFields (line ++ [10])).drop 1) →
        (mgDecode d (line ++ 10 :: rest)).1.recache = d.recache) ∧
      ([88] ∉ (mcFields (line ++ [10])).drop 1 →
        (mgDecode d (line ++ 10 :: rest)).1.stale = d.stale) ∧
      (noDigitHead ((mcFields (line ++ [10])).drop 1) →
        (mgDecode d (line ++ 10 :: rest)).1.value = d.value) := by
  intro d line rest hnl _hascii
  rw [mgDecode, splitLine_append line rest hnl]
  dsimp only
  rcases hf : mcFields (line ++ [10]) with _ | ⟨st, toks⟩
  · dsimp only
    exact ⟨fun _ => rfl, fun _ => rfl, fun _ => rfl, fun _ => rfl,
      fun _ => rfl, fun _ => rfl, fun _ => rfl, fun _ => rfl,
      fun _ => rfl, fun _ => rfl, fun _ => rfl⟩
  · dsimp only
    rw [show List.drop 1 (st :: toks) = toks from rfl]
    by_cases hst : metaGetStatusFromHeader st = .invalid
    · rw [if_pos hst]
      exact ⟨fun _ => rfl, fun _ => rfl, fun _ => rfl, fun _ => rfl,
        fun _ => rfl, fun _ => rfl, fun _ => rfl, fun _ => rfl,
        fun _ => rfl, fun _ => rfl, fun _ => rfl⟩
    · rw [if_neg hst]
      obtain ⟨fV, fD, fO, fC, fT, fK, fCF, fH, fS, fL, fR, fX⟩ :=
        mgProcessFields_frame toks
          { d with status := metaGetStatusFromHeader st } none
      rcases hpp : mgProcessFields
          { d with status := metaGetStatusFromHeader st } none toks
        with ⟨d2, res⟩
      rw [hpp] at fV fD fO fC fT fK fCF fH fS fL fR fX
      dsimp only at fV fD fO fC fT fK fCF fH fS fL fR fX ⊢
      rcases res with msg | vs
      · exact ⟨fO, fC, fT, fK, fCF, fH, fS, fL, fR, fX, fun _ => fV⟩
      · rcases vs with _ | n
        · exact ⟨fO, fC, fT, fK, fCF, fH, fS, fL, fR, fX, fun _ => fV⟩
        · dsimp only
          have hvalc : noDigitHead toks → False := by
            intro h
            rcases fD h with h1 | ⟨m, h1⟩ <;> simp at h1
          rcases hrv : (readValueBlock n rest).2 with m2 | r2 <;>
            dsimp only
          · exact ⟨fO, fC, fT, fK, fCF, fH, fS, fL, fR, fX,
              fun h => (hvalc h).elim⟩
          · rcases hcr : readCRLF r2 with m3 | r3 <;> dsimp only
            · exact ⟨fO, fC, fT, fK, fCF, fH, fS, fL, fR, fX,
                fun h => (hvalc h).elim⟩
            · exact ⟨fO, fC, fT, fK, fCF, fH, fS, fL, fR, fX,
                fun h => (hvalc h).elim⟩

/-- Decode-level frame facts for `ms`. -/
theorem msDecode_frame :
    ∀ (d : MetaSetDecoder) (line rest : List Nat), (10 : Nat) ∉ line →
      (∀ b ∈ line, b < 0x80) →
      (headNe 79 ((mcFields (line ++ [10])).drop 1) →
        (msDecode d (line ++ 10 :: rest)).1.opaqueVal = d.opaqueVal) ∧
      (headNe 99 ((mcFields (line ++ [10])).drop 1) →
        (msDecode d (line ++ 10 :: rest)).1.casId = d.casId) ∧
      (headNe 107 ((mcFields (line ++ [10])).drop 1) →
        (msDecode d (line ++ 10 :: rest)).1.itemKey = d.itemKey) := by
  intro d line rest hnl _hascii
  rw [msDecode, splitLine_append line rest hnl]
  dsimp only
  rcases hf : mcFields (line ++ [10]) with _ | ⟨st, toks⟩
  · dsimp only
    exact ⟨fun _ => rfl, fun _ => rfl, fun _ => rfl⟩
  · dsimp only
    rw [show List.drop 1 (st :: toks) = toks from rfl]
    by_cases hst : metaSetStatusFromHeader st = .invalid
    · rw [if_pos hst]
      exact ⟨fun _ => rfl, fun _ => rfl, fun _ => rfl⟩
    · rw [if_neg hst]
      obtain ⟨fO, fC, fK⟩ := msProcessFields_frame toks
        { d with status := metaSetStatusFromHeader st }
      rcases hpp : msProcessFields
          { d with status := metaSetStatusFromHeader st } toks
        with ⟨d2, res⟩
      rw [hpp] at fO fC fK
      dsimp only at fO fC fK ⊢
      rcases res with msg | u
      · exact ⟨fO, fC, fK⟩
      · exact ⟨fO, fC, fK⟩

/-- Decode-level frame facts for `md`. -/
theorem mdDecode_frame :
    ∀ (d : MetaDeleteDecoder) (line rest : List Nat), (10 : Nat) ∉ line →
      (∀ b ∈ line, b < 0x80) →
      (headNe 79 ((mcFields (line ++ [10])).drop 1) →
        (mdDecode d (line ++ 10 :: rest)).1.opaqueVal = d.opaqueVal) ∧
      (headNe 107 ((mcFields (line ++ [10])).drop 1) →
        (mdDecode d (line ++ 10 :: rest)).1.itemKey = d.itemKey) := by
  intro d line rest hnl _hascii
  rw [mdDecode, splitLine_append line rest hnl]
  dsimp only
  rcases hf : mcFields (line ++ [10]) with _ | ⟨st, toks⟩
  · dsimp only
    exact ⟨fun _ => rfl, fun _ => rfl⟩
  · dsimp only
    rw [show List.drop 1 (st :: toks) = toks from rfl]
    by_cases hst : metaDeleteStatusFromHeader st = .invalid
    · rw [if_pos hst]
      exact ⟨fun _ => rfl, fun _ => rfl⟩
    · rw [if_neg hst]
      obtain ⟨fO, fK⟩ := mdProcessFields_frame toks
        { d with status := metaDeleteStatusFromHeader st }
      rcases hpp : mdProcessFields
          { d with status := metaDeleteStatusFromHeader st } toks
        with ⟨d2, res⟩
      rw [hpp] at fO fK
      dsimp only at fO fK ⊢
      rcases res with msg | u
      · exact ⟨fO, fK⟩
      · exact ⟨fO, fK⟩

/-- Decode-level frame facts for `ma`. -/
theorem maDecode_frame :
    ∀ (d : MetaArithmeticDecoder) (line rest : List Nat), (10 : Nat) ∉ line →
      (∀ b ∈ line, b < 0x80) →
      (headNe 79 ((mcFields (line ++ [10])).drop 1) →
        (maDecode d (line ++ 10 :: rest)).1.opaqueVal = d.opaqueVal) ∧
      (headNe 99 ((mcFields (line ++ [10])).drop 1) →
        (maDecode d (line ++ 10 :: rest)).1.casId = d.casId) ∧
      (headNe 116 ((mcFields (line ++ [10])).drop 1) →
        (maDecode d (line ++ 10 :: rest)).1.remainingTTLSeconds =
          d.remainingTTLSeconds) ∧
      (headNe 107 ((mcFields (line ++ [10])).drop 1) →
        (maDecode d (line ++ 10 :: rest)).1.itemKey = d.itemKey) ∧
      (noDigitHead ((mcFields (line ++ [10])).drop 1) →
        (maDecode d (line ++ 10 :: rest)).1.value = d.value ∧
        (maDecode d (line ++ 10 :: rest)).1.valueUInt64 = d.valueUInt64) := by
  intro d line rest hnl _hascii
  rw [maDecode, splitLine_append line rest hnl]
  dsimp only
  rcases hf : mcFields (line ++ [10]) with _ | ⟨st, toks⟩
  · dsimp only
    exact ⟨fun _ => rfl, fun _ => rfl, fun _ => rfl, fun _ => rfl,
      fun _ => ⟨rfl, rfl⟩⟩
  · dsimp only
    rw [show List.drop 1 (st :: toks) = toks from rfl]
    by_cases hst : arithmeticStatusFromHeader st = .invalid
    · rw [if_pos hst]
      exact ⟨fun _ => rfl, fun _ => rfl, fun _ => rfl, fun _ => rfl,
        fun _ => ⟨rfl, rfl⟩⟩
    · rw [if_neg hst]
      obtain ⟨fV, fU, fD, fO, fC, fT, fK⟩ := maProcessFields_frame toks
        { d with status := arithmeticStatusFromHeader st } none
      rcases hpp : maProcessFields
          { d with status := arithmeticStatusFromHeader st } none toks
        with ⟨d2, res⟩
      rw [hpp] at fV fU fD fO fC fT fK
      dsimp only at fV fU fD fO fC fT fK ⊢
      have hval : ∀ h : noDigitHead toks,
          res = Except.ok none ∨ ∃ msg, res = Except.error msg := fD
      refine ⟨?_, ?_, ?_, ?_, ?_⟩
      · intro h
        rcases res with msg | vs
        · exact fO h
        · rcases vs with _ | n
          · exact fO h
          · dsimp only
            rcases hrv : (readValueBlock n rest).2 with m2 | r2 <;>
              dsimp only
            · exact fO h
            · rcases hpu : parseUint64 (readValueBlock n rest).1
                with _ | v <;> dsimp only
              · exact fO h
              · rcases hcr : readCRLF r2 with m3 | r3 <;> dsimp only
                · exact fO h
                · exact fO h
      · intro h
        rcases res with msg | vs
        · exact fC h
        · rcases vs with _ | n
          · exact fC h
          · dsimp only
            rcases hrv : (readValueBlock n rest).2 with m2 | r2 <;>
              dsimp only
            · exact fC h
            · rcases hpu : parseUint64 (readValueBlock n rest).1
                with _ | v <;> dsimp only
              · exact fC h
              · rcases hcr : readCRLF r2 with m3 | r3 <;> dsimp only
                · exact fC h
                · exact fC h
      · intro h
        rcases res with msg | vs
        · exact fT h
        · rcases vs with _ | n
          · exact fT h
          · dsimp only
            rcases hrv : (readValueBlock n rest).2 with m2 | r2 <;>
              dsimp only
            · exact fT h
            · rcases hpu : parseUint64 (readValueBlock n rest).1
                with _ | v <;> dsimp only
              · exact fT h
              · rcases hcr : readCRLF r2 with m3 | r3 <;> dsimp only
                · exact fT h
                · exact fT h
      · intro h
        rcases res with msg | vs
        · exact fK h
        · rcases vs with _ | n
          · exact fK h
          · dsimp only
            rcases hrv : (readValueBlock n rest).2 with m2 | r2 <;>
              dsimp only
            · exact fK h
            · rcases hpu : parseUint64 (readValueBlock n rest).1
                with _ | v <;> dsimp only
              · exact fK h
              · rcases hcr : readCRLF r2 with m3 | r3 <;> dsimp only
                · exact fK h
                · exact fK h
      · intro h
        rcases hval h with hok | ⟨msg, herr⟩
        · rw [hok]
          exact ⟨fV, fU⟩
        · rw [herr]
          exact ⟨fV, fU⟩

/-- **C10.**  Each response decoder (`mg`, `ms`, `md`, `ma`) only
overwrites the fields whose tokens actually appear on the (ASCII) header
line being decoded: every token-settable field — for `mg` all eleven of
them: opaque, cas, TTL, key, client flags, hit-before, size, last-access,
recache (`W`/`Z` tokens), stale (`X` token) and value (digit-led size
token) — keeps whatever value it held before the `Decode` call when its
token is absent, on success and error paths alike.  The documented
defaults are exactly what `Reset` installs, so they are only guaranteed
when `Reset` ran before decoding. -/
theorem c10_decoders_frame_effect :
    (∀ (d : MetaGetDecoder) (line rest : List Nat), (10 : Nat) ∉ line →
      (∀ b ∈ line, b < 0x80) →
      (headNe 79 ((mcFields (line ++ [10])).drop 1) →
        (mgDecode d (line ++ 10 :: rest)).1.opaqueVal = d.opaqueVal) ∧
      (headNe 99 ((mcFields (line ++ [10])).drop 1) →
        (mgDecode d (line ++ 10 :: rest)).1.casId = d.casId) ∧
      (headNe 116 ((mcFields (line ++ [10])).drop 1) →
        (mgDecode d (line ++ 10 :: rest)).1.remainingTTLSeconds =
          d.remainingTTLSeconds) ∧
      (headNe 107 ((mcFields (line ++ [10])).drop 1) →
        (mgDecode d (line ++ 10 :: rest)).1.itemKey = d.itemKey) ∧
      (headNe 102 ((mcFields (line ++ [10])).drop 1) →
        (mgDecode d (line ++ 10 :: rest)).1.clientFlags = d.clientFlags) ∧
      (headNe 104 ((mcFields (line ++ [10])).drop 1) →
        (mgDecode d (line ++ 10 :: rest)).1.isItemHitBefore =
          d.isItemHitBefore) ∧
      (headNe 115 ((mcFields (line ++ [10])).drop 1) →
        (mgDecode d (line ++ 10 :: rest)).1.itemSizeInBytes =
          d.itemSizeInBytes) ∧
      (headNe 108 ((mcFields (line ++ [10])).drop 1) →
        (mgDecode d (line ++ 10 :: rest)).1.timeSinceLastAccessedSeconds =
          d.timeSinceLastAccessedSeconds) ∧
      (([87] ∉ (mcFields (line ++ [10])).drop 1 ∧
          [90] ∉ (mcFields (line ++ [10])).drop 1) →
        (mgDecode d (line ++ 10 :: rest)).1.recache = d.recache) ∧
      ([88] ∉ (mcFields (line ++ [10])).drop 1 →
        (mgDecode d (line ++ 10 :: rest)).1.stale = d.stale) ∧
      (noDigitHead ((mcFields (line ++ [10])).drop 1) →
        (mgDecode d (line ++ 10 :: rest)).1.value = d.value)) ∧
    (∀ (d : MetaSetDecoder) (line rest : List Nat), (10 : Nat) ∉ line →
      (∀ b ∈ line, b < 0x80) →
      (headNe 79 ((mcFields (line ++ [10])).drop 1) →
        (msDecode d (line ++ 10 :: rest)).1.opaqueVal = d.opaqueVal) ∧
      (headNe 99 ((mcFields (line ++ [10])).drop 1) →
        (msDecode d (line ++ 10 :: rest)).1.casId = d.casId) ∧
      (headNe 107 ((mcFields (line ++ [10])).drop 1) →
        (msDecode d (line ++ 10 :: rest)).1.itemKey = d.itemKey)) ∧
    (∀ (d : MetaDeleteDecoder) (line rest : List Nat), (10 : Nat) ∉ line →
      (∀ b ∈ line, b < 0x80) →
      (headNe 79 ((mcFields (line ++ [10])).drop 1) →
        (mdDecode d (line ++ 10 :: rest)).1.opaqueVal = d.opaqueVal) ∧
      (headNe 107 ((mcFields (line ++ [10])).drop 1) →
        (mdDecode d (line ++ 10 :: rest)).1.itemKey = d.itemKey)) ∧
    (∀ (d : MetaArithmeticDecoder) (line rest : List Nat),
      (10 : Nat) ∉ line → (∀ b ∈ line, b < 0x80) →
      (headNe 79 ((mcFields (line ++ [10])).drop 1) →
        (maDecode d (line ++ 10 :: rest)).1.opaqueVal = d.opaqueVal) ∧
      (headNe 99 ((mcFields (line ++ [10])).drop 1) →
        (maDecode d (line ++ 10 :: rest)).1.casId = d.casId) ∧
      (headNe 116 ((mcFields (line ++ [10])).drop 1) →
        (maDecode d (line ++ 10 :: rest)).1.remainingTTLSeconds =
          d.remainingTTLSeconds) ∧
      (headNe 107 ((mcFields (line ++ [10])).drop 1) →
        (maDecode d (line ++ 10 :: rest)).1.itemKey = d.itemKey) ∧
      (noDigitHead ((mcFields (line ++ [10])).drop 1) →
        (maDecode d (line ++ 10 :: rest)).1.value = d.value ∧
        (maDecode d (line ++ 10 :: rest)).1.valueUInt64 =
          d.valueUInt64)) ∧
    (∀ d : MetaGetDecoder, mgReset d = {}) ∧
    (∀ d : MetaSetDecoder, msReset d = {}) ∧
    (∀ d : MetaDeleteDecoder, mdReset d = {}) ∧
    (∀ d : MetaArithmeticDecoder, maReset d = {}) :=
  ⟨mgDecode_frame, msDecode_frame, mdDecode_frame, maDecode_frame,
    fun _ => rfl, fun _ => rfl, fun _ => rfl, fun _ => rfl⟩

/-- Witness for C10: decoding `HD\r\n` with an un-reset `mg` decoder that
still holds opaque 5 and a non-nil value leaves both fields intact — the
documented defaults do not hold without `Reset`. -/
theorem c10_decoders_frame_effect_witness :
    (mgDecode { opaqueVal := 5, value := some [120], stale := true }
      (strBytes "HD\r" ++ 10 :: [])).1.opaqueVal = 5 ∧
    (mgDecode { opaqueVal := 5, value := some [120], stale := true }
      (strBytes "HD\r" ++ 10 :: [])).1.value = some [120] ∧
    (mgDecode { opaqueVal := 5, value := some [120], stale := true }
      (strBytes "HD\r" ++ 10 :: [])).1.stale = true := by
  have h := c10_decoders_frame_effect.1
    { opaqueVal := 5, value := some [120], stale := true }
    (strBytes "HD\r") [] (by decide) (by decide)
  refine ⟨h.1 ?_, (h.2.2.2.2.2.2.2.2.2.2) ?_, (h.2.2.2.2.2.2.2.2.2.1) ?_⟩ <;>
    simp [mcFields, strBytes, isAsciiSpace, headNe, noDigitHead]

end Memlink
